import Mathlib

/-
  Verification of the echox repository (authentication, catalog extraction,
  download index, sync pipeline) against its natural-language specification.

  The Python source is shallowly embedded: pure fragments become Lean
  functions; the HTTP layer is abstracted by passing each response
  (status code, final URL, body, cookie names) or a download-success
  oracle as explicit arguments; exceptions become the Except monad or an
  explicit error field; the sqlite tables become lists of row structures.
-/

namespace Echox

/-- Errors raised by the embedded code: EchoException from echo_client.py,
ValueError from the standard library query-string parser, KeyError and
TypeError from dynamic lookups, and sqlite3.IntegrityError from index.py. -/
inductive PyError where
  | echo (msg : String)
  | valueError (msg : String)
  | keyError (msg : String)
  | typeError (msg : String)
  | integrityError (msg : String)
deriving DecidableEq, Repr

/-- Decidable equality of fallible results, so that witnesses can be
checked by evaluation. -/
instance {ε α : Type} [DecidableEq ε] [DecidableEq α] :
    DecidableEq (Except ε α) := fun x y =>
  match x, y with
  | .ok a, .ok b =>
    if h : a = b then isTrue (by rw [h]) else isFalse (fun hc => by cases hc; exact h rfl)
  | .error e, .error f =>
    if h : e = f then isTrue (by rw [h]) else isFalse (fun hc => by cases hc; exact h rfl)
  | .ok _, .error _ => isFalse (fun hc => by cases hc)
  | .error _, .ok _ => isFalse (fun hc => by cases hc)

/-! ## Query-string parsing

Model of `_get_url_singular_query_params` (echo_client.py, lines 68 to 75),
which calls `urllib.parse.parse_qs(urlparse(url).query, strict_parsing=True,
keep_blank_values=False)` and keeps the first value of each parameter. -/

/-- Numeric value of a hexadecimal digit, as used by percent-decoding. -/
def hexVal (c : Char) : Option Nat :=
  if '0' ≤ c ∧ c ≤ '9' then some (c.toNat - '0'.toNat)
  else if 'a' ≤ c ∧ c ≤ 'f' then some (c.toNat - 'a'.toNat + 10)
  else if 'A' ≤ c ∧ c ≤ 'F' then some (c.toNat - 'A'.toNat + 10)
  else none

/-- Percent-decoding as done by `urllib.parse.unquote`: a percent sign
followed by two hexadecimal digits decodes to the character with that code
(single-byte escape sequences; the claims never involve multi-byte ones),
and a percent sign not followed by two hexadecimal digits is kept verbatim. -/
def percentDecode : List Char → List Char
  | [] => []
  | '%' :: h :: l :: rest =>
    match hexVal h, hexVal l with
    | some a, some b => Char.ofNat (16 * a + b) :: percentDecode rest
    | _, _ => '%' :: percentDecode (h :: l :: rest)
  | c :: rest => c :: percentDecode rest

/-- The value decoding done by `parse_qsl`: replace every plus sign by a
space, then percent-decode. -/
def unquotePlus (s : String) : String :=
  ⟨percentDecode (s.data.map (fun c => if c = '+' then ' ' else c))⟩

/-- Split a raw `name=value` field at the first equals sign, as Python
`name_value.split("=", 1)`; `none` when the field has no equals sign. -/
def splitNameValue : List Char → Option (List Char × List Char)
  | [] => none
  | '=' :: rest => some ([], rest)
  | c :: rest => (splitNameValue rest).map (fun p => (c :: p.1, p.2))

/-- One iteration of the `parse_qsl` loop on a single `&`-separated field:
an empty field is skipped unless parsing strictly; a field without an equals
sign is a ValueError under strict parsing (otherwise kept blank or skipped
depending on `keepBlank`); a field with a blank raw value is dropped unless
`keepBlank`; kept names and values are plus/percent-decoded. -/
def parseQslField (strict keepBlank : Bool) (field : String) :
    Except PyError (List (String × String)) :=
  if field = "" ∧ strict = false then .ok []
  else
    match splitNameValue field.data with
    | none =>
      if strict then .error (.valueError ("bad query field: " ++ field))
      else if keepBlank then .ok [(unquotePlus field, "")]
      else .ok []
    | some (n, v) =>
      if v ≠ [] ∨ keepBlank then .ok [(unquotePlus ⟨n⟩, unquotePlus ⟨v⟩)]
      else .ok []

/-- The `parse_qsl` loop over the list of `&`-separated fields. -/
def parseQslFields (strict keepBlank : Bool) :
    List String → Except PyError (List (String × String))
  | [] => .ok []
  | f :: rest => do
    let l ← parseQslField strict keepBlank f
    let r ← parseQslFields strict keepBlank rest
    pure (l ++ r)

/-- Python `qs.split("&")`: split at every ampersand, keeping empty
fields; the empty string yields one empty field. -/
def splitAmp : List Char → List (List Char)
  | [] => [[]]
  | '&' :: rest => [] :: splitAmp rest
  | c :: rest =>
    match splitAmp rest with
    | f :: r => (c :: f) :: r
    | [] => [[c]]

/-- `urllib.parse.parse_qsl`: split the query string on ampersands and run
the field loop. -/
def parseQsl (strict keepBlank : Bool) (qs : String) :
    Except PyError (List (String × String)) :=
  parseQslFields strict keepBlank ((splitAmp qs.data).map (fun l => ⟨l⟩))

/-- Insert one parsed pair into the grouped dictionary kept by `parse_qs`:
append the value to the list of an existing name, in insertion order,
or add a new entry at the end. -/
def addParam (acc : List (String × List String)) (p : String × String) :
    List (String × List String) :=
  if acc.any (fun q => q.1 == p.1) then
    acc.map (fun q => if q.1 == p.1 then (q.1, q.2 ++ [p.2]) else q)
  else acc ++ [(p.1, [p.2])]

/-- `urllib.parse.parse_qs`: group the parsed pairs by name, preserving the
insertion order of Python dictionaries. -/
def parseQs (strict keepBlank : Bool) (qs : String) :
    Except PyError (List (String × List String)) :=
  (parseQsl strict keepBlank qs).map (fun l => l.foldl addParam [])

/-- The query component of a URL as returned by `urlparse`: everything
after the first question mark, with the fragment (after the first hash
sign) removed first. -/
def urlQuery (url : String) : String :=
  match (url.data.takeWhile (· ≠ '#')).dropWhile (· ≠ '?') with
  | [] => ""
  | _ :: rest => ⟨rest⟩

/-- The dictionary comprehension `{name: value for name, (value, *_) in
query_params.items()}`: keep the first value of each grouped parameter. -/
def singularize (groups : List (String × List String)) : List (String × String) :=
  groups.filterMap (fun q => q.2.head?.map (fun v => (q.1, v)))

/-- `_get_url_singular_query_params` (echo_client.py, lines 68 to 75):
parse the query of the URL strictly with blank values dropped, then keep
for each parameter name its first value. -/
def getUrlSingularQueryParams (url : String) :
    Except PyError (List (String × String)) :=
  (parseQs true false (urlQuery url)).map singularize

/-- Dictionary access on the result of the singular-parameter extraction. -/
def lookupParam (params : List (String × String)) (k : String) : Option String :=
  (params.find? (fun p => p.1 == k)).map (fun p => p.2)

/-! ## The three-step login protocol (echo_client.py, lines 121 to 274)

Each step is embedded as a function of the relevant HTTP response, given as
explicit arguments: the status code, the final URL after redirects, and the
cookie names present in the session cookie jar afterwards. -/

/-- The user record built by a successful institution resolution. -/
structure EchoUser where
  user_id : String
  institution_id : String
  app_id : String
deriving DecidableEq, Repr

/-- `_begin_institution_authentication` (echo_client.py, lines 121 to 172),
applied to the institution-lookup response: check the status, extract the
singular query parameters of the final URL, require `userId` and
`callbackUrl`, parse the callback URL and require `institutionId`; return
the login URL, the callback URL and the user. -/
def beginInstitutionAuthentication (statusCode : Nat) (finalUrl : String)
    (appId : String) : Except PyError (String × String × EchoUser) := do
  if statusCode ≠ 200 then
    throw (PyError.echo "Failed to find institution while attempting to login.")
  let loginUrlQueryParams ← getUrlSingularQueryParams finalUrl
  match lookupParam loginUrlQueryParams "userId" with
  | none => throw (PyError.echo "Failed to obtain the the user ID from authentication.")
  | some userId =>
  match lookupParam loginUrlQueryParams "callbackUrl" with
  | none => throw (PyError.echo "Failed to obtain the callback URL for authentication.")
  | some callbackUrl => do
    let callbackUrlQueryParams ← getUrlSingularQueryParams callbackUrl
    match lookupParam callbackUrlQueryParams "institutionId" with
    | none => throw (PyError.echo "Failed to obtain the institution ID for authentication.")
    | some institutionId =>
      pure (finalUrl, callbackUrl, ⟨userId, institutionId, appId⟩)

/-- The six cookies `_REQUIRED_COOKIES` (echo_client.py, lines 13 to 20). -/
def requiredCookies : List String :=
  ["ECHO_JWT", "PLAY_SESSION", "CloudFront-Key-Pair-Id", "CloudFront-Policy",
   "CloudFront-Signature", "CloudFront-Tracking2"]

/-- `_complete_institution_login` (echo_client.py, lines 226 to 248), applied
to the completion response: the status must be 200 and the required cookies
must all be present in the session cookie jar, otherwise an EchoException
is raised. -/
def completeInstitutionLogin (statusCode : Nat) (cookieNames : List String) :
    Except PyError Unit :=
  if statusCode ≠ 200 then
    .error (PyError.echo "Failed to complete authentication: response not ok.")
  else if ¬ (requiredCookies.all (fun c => cookieNames.contains c)) then
    .error (PyError.echo "Failed to complete authentication: missing required cookies.")
  else .ok ()

/-! ## Scoped acquisition of the client (echo_client.py, lines 108 to 119)

`EchoClient.__enter__` creates the transport session and then runs the
3-step login; `EchoClient.__exit__` closes the session. The Python `with`
statement calls `__exit__` only when `__enter__` returned without raising. -/

/-- Whether the transport session created by the client is still open. -/
structure EchoClientState where
  sessionOpen : Bool
deriving DecidableEq, Repr

/-- `EchoClient.__enter__` (echo_client.py, lines 108 to 116): the session is
created first, then `login` runs; its outcome is passed in as an argument.
When login raises, the exception propagates out of `__enter__` with the
session still open. -/
def echoClientEnter (loginResult : Except PyError EchoUser) :
    EchoClientState × Option PyError :=
  match loginResult with
  | .ok _ => (⟨true⟩, none)
  | .error e => (⟨true⟩, some e)

/-- `EchoClient.__exit__` (echo_client.py, lines 118 to 119): close the
session. -/
def echoClientExit (s : EchoClientState) : EchoClientState :=
  { s with sessionOpen := false }

/-- The `with echo_client:` statement around a body whose outcome is
`bodyErr`: per the Python context-manager protocol, `__exit__` runs on every
exit of the body, but is not invoked at all when `__enter__` itself raises. -/
def withEchoClient (loginResult : Except PyError EchoUser)
    (bodyErr : Option PyError) : EchoClientState × Option PyError :=
  match echoClientEnter loginResult with
  | (s, some e) => (s, some e)
  | (s, none) => (echoClientExit s, bodyErr)

/-! ## The download index (index.py)

The three sqlite tables become lists of row structures, in insertion order.
The `course` and `lesson` tables have `id` as PRIMARY KEY; the `media`
table has the composite PRIMARY KEY `(id, file_name)`. -/

/-- A row of the `course` table (index.py, lines 5 to 11). -/
structure CourseRow where
  id : String
  name : String
  code : String
deriving DecidableEq, Repr

/-- A row of the `lesson` table (index.py, lines 13 to 20). -/
structure LessonRow where
  id : String
  name : String
  for_course : String
deriving DecidableEq, Repr

/-- A row of the `media` table (index.py, lines 22 to 30): the
DownloadRecord, keyed by the composite `(id, file_name)`. -/
structure MediaRow where
  id : String
  file_name : String
  for_lesson : String
deriving DecidableEq, Repr

/-- The state of the index database: the three tables. -/
structure IndexState where
  courses : List CourseRow
  lessons : List LessonRow
  media : List MediaRow
deriving DecidableEq, Repr

/-- `INSERT ... ON CONFLICT(key) DO UPDATE`: when a row with the same key
exists it is updated in place (under the PRIMARY KEY constraint at most one
row can match; the map rewrites every matching row, which agrees with that
on every reachable table), otherwise the new row is appended. -/
def upsertBy {α : Type} (key : α → String) (row : α) (t : List α) : List α :=
  if key row ∈ t.map key then
    t.map (fun r => if key r = key row then row else r)
  else t ++ [row]

/-- `Index.create_course_or_update` (index.py, lines 55 to 71). -/
def createCourseOrUpdate (s : IndexState) (courseId courseName courseCode : String) :
    IndexState :=
  { s with courses := upsertBy CourseRow.id ⟨courseId, courseName, courseCode⟩ s.courses }

/-- `Index.create_lesson_or_update` (index.py, lines 73 to 90). -/
def createLessonOrUpdate (s : IndexState) (lessonId lessonName forCourseId : String) :
    IndexState :=
  { s with lessons := upsertBy LessonRow.id ⟨lessonId, lessonName, forCourseId⟩ s.lessons }

/-- `Index.has_media` (index.py, lines 92 to 102): the SELECT EXISTS check
on the composite key. -/
def hasMedia (s : IndexState) (mediaId fileName : String) : Bool :=
  s.media.any (fun r => r.id == mediaId && r.file_name == fileName)

/-- `Index.create_media` (index.py, lines 104 to 119): a plain INSERT; the
composite PRIMARY KEY `(id, file_name)` makes a second insert with the same
key raise `sqlite3.IntegrityError`, leaving the table unchanged. -/
def createMedia (s : IndexState) (mediaId fileName forLessonId : String) :
    Except PyError IndexState :=
  if hasMedia s mediaId fileName then
    .error (PyError.integrityError "UNIQUE constraint failed: media.id, media.file_name")
  else .ok { s with media := s.media ++ [⟨mediaId, fileName, forLessonId⟩] }

/-! ## The sync pipeline (cli.py, lines 15 to 95)

The typed entities built by `EchoClient.get_media` and consumed by the
pipeline (echo_client.py, lines 30 to 60). The network download performed by
`EchoClient.save_media_file` is abstracted by a success oracle
`dl media_id file_name`: `true` means the streaming GET succeeded and the
file bytes were fully written to disk, `false` means the download or the
write raised. Each run records a trace of the observable actions. -/

/-- `MediaFile` (echo_client.py, lines 37 to 41). -/
structure MediaFile where
  name : String
  size : Int
  is_processed : Bool
deriving DecidableEq, Repr

/-- `Course` (echo_client.py, lines 30 to 34). -/
structure Course where
  id : String
  name : String
  code : String
deriving DecidableEq, Repr

/-- `Lesson` (echo_client.py, lines 44 to 47). -/
structure Lesson where
  id : String
  name : String
deriving DecidableEq, Repr

/-- `Media` (echo_client.py, lines 50 to 60). -/
structure Media where
  organization_id : String
  department_id : String
  section_id : String
  media_id : String
  lesson : Lesson
  course : Course
  files : List MediaFile
deriving DecidableEq, Repr

/-- Observable actions of one pipeline run: an `Index.has_media` existence
check with its result, a fully completed download-and-write of the file
bytes, a download or write that raised, and the creation of a
DownloadRecord by `Index.create_media`. -/
inductive Event where
  | hasMediaQuery (mediaId fileName : String) (result : Bool)
  | downloadComplete (mediaId fileName : String)
  | downloadFailed (mediaId fileName : String)
  | recordCreated (mediaId fileName : String)
deriving DecidableEq, Repr

/-- The outcome of a run fragment: the index state when it finished or
raised, the trace of observable actions, and the propagated exception if
one was raised. -/
structure RunResult where
  state : IndexState
  events : List Event
  err : Option PyError
deriving DecidableEq, Repr

/-- `_save_media_file` (cli.py, lines 15 to 64): skip unprocessed files with
no index interaction; skip files already present in the index; otherwise
download (the `dl` oracle decides whether `EchoClient.save_media_file`
completes or raises) and only then create the index record. -/
def saveMediaFile (dl : String → String → Bool) (media : Media)
    (file : MediaFile) (s : IndexState) : RunResult :=
  if ¬ file.is_processed then
    ⟨s, [], none⟩
  else if hasMedia s media.media_id file.name then
    ⟨s, [.hasMediaQuery media.media_id file.name true], none⟩
  else if dl media.media_id file.name then
    match createMedia s media.media_id file.name media.lesson.id with
    | .ok s1 =>
      ⟨s1, [.hasMediaQuery media.media_id file.name false,
            .downloadComplete media.media_id file.name,
            .recordCreated media.media_id file.name], none⟩
    | .error e =>
      ⟨s, [.hasMediaQuery media.media_id file.name false,
           .downloadComplete media.media_id file.name], some e⟩
  else
    ⟨s, [.hasMediaQuery media.media_id file.name false,
         .downloadFailed media.media_id file.name],
     some (PyError.echo "Failed to download media.")⟩

/-- The `for file in media.files` loop of `_download_media_if_not_exists`
(cli.py, lines 88 to 95); an exception raised for one file aborts the run. -/
def runFiles (dl : String → String → Bool) (media : Media) :
    List MediaFile → IndexState → RunResult
  | [], s => ⟨s, [], none⟩
  | f :: rest, s =>
    let r := saveMediaFile dl media f s
    match r.err with
    | some e => ⟨r.state, r.events, some e⟩
    | none =>
      let r2 := runFiles dl media rest r.state
      ⟨r2.state, r.events ++ r2.events, r2.err⟩

/-- `_download_media_if_not_exists` (cli.py, lines 67 to 95): upsert the
course and the lesson of the media unconditionally, then process its files. -/
def downloadMediaIfNotExists (dl : String → String → Bool) (media : Media)
    (s : IndexState) : RunResult :=
  let s1 := createCourseOrUpdate s media.course.id media.course.name media.course.code
  let s2 := createLessonOrUpdate s1 media.lesson.id media.lesson.name media.course.id
  runFiles dl media media.files s2

/-- The media loop of `cli` (cli.py, lines 123 to 144): the syllabi of the
configured sections flatten to an ordered list of media, each refetched via
`get_media`; under an unchanged remote state the list is the same on every
run. An exception aborts the whole run. -/
def runPipeline (dl : String → String → Bool) :
    List Media → IndexState → RunResult
  | [], s => ⟨s, [], none⟩
  | m :: rest, s =>
    let r := downloadMediaIfNotExists dl m s
    match r.err with
    | some e => ⟨r.state, r.events, some e⟩
    | none =>
      let r2 := runPipeline dl rest r.state
      ⟨r2.state, r.events ++ r2.events, r2.err⟩

/-! ## Dynamic payloads and `get_media` (echo_client.py, lines 318 to 362)

The parsed JSON of the media-details response is a dynamically typed value;
`get_media` navigates it with dictionary lookups and Python iterable
unpacking (`first, *_ = value`). -/

/-- A parsed JSON value, as produced by `response.json()`: object fields are
kept in source order (Python dictionaries preserve insertion order). -/
inductive Json where
  | null
  | bool (b : Bool)
  | num (n : Int)
  | str (s : String)
  | arr (elems : List Json)
  | obj (fields : List (String × Json))

/-- Python dictionary access `j[k]` with a string literal key: KeyError when
the key is absent, TypeError when the value is not a dictionary. -/
def Json.get (j : Json) (k : String) : Except PyError Json :=
  match j with
  | .obj fields =>
    match fields.lookup k with
    | some v => .ok v
    | none => .error (.keyError k)
  | _ => .error (.typeError "value is not a dict")

/-- Python dictionary access `j[k]` with a computed key: JSON object keys
are strings, so a non-string key never matches and raises. -/
def Json.index (j : Json) (k : Json) : Except PyError Json :=
  match k with
  | .str s => j.get s
  | _ => .error (.keyError "non-string key")

/-- Python iterable unpacking `first, *_ = j`: the first element of
iterating the value. Iterating a list yields its elements, iterating a
string yields its characters as one-character strings, iterating a
dictionary yields its keys; an empty iterable raises ValueError and a
non-iterable raises TypeError. -/
def Json.iterFirst (j : Json) : Except PyError Json :=
  match j with
  | .arr (x :: _) => .ok x
  | .arr [] => .error (.valueError "not enough values to unpack")
  | .str s =>
    match s.data with
    | c :: _ => .ok (.str (String.mk [c]))
    | [] => .error (.valueError "not enough values to unpack")
  | .obj ((k, _) :: _) => .ok (.str k)
  | .obj [] => .error (.valueError "not enough values to unpack")
  | _ => .error (.typeError "cannot unpack non-iterable value")

/-- Python iteration over the `details.files` list: only a JSON array
iterates to a list of file entries (the other iterable cases would fail at
the first field access and are collapsed into the TypeError). -/
def Json.iterList (j : Json) : Except PyError (List Json) :=
  match j with
  | .arr l => .ok l
  | _ => .error (.typeError "value is not iterable")

/-- The `Course` object as built by `get_media`, with the dynamically typed
values the Python attributes receive. -/
structure CourseDyn where
  id : Json
  name : Json
  code : Json

/-- The `Lesson` object as built by `get_media`, dynamically typed. -/
structure LessonDyn where
  id : Json
  name : Json

/-- The `MediaFile` object as built by `get_media`, dynamically typed. -/
structure MediaFileDyn where
  name : Json
  size : Json
  is_processed : Json

/-- The `Media` object as built by `get_media`, dynamically typed. -/
structure MediaDyn where
  organization_id : Json
  department_id : Json
  section_id : Json
  media_id : String
  lesson : LessonDyn
  course : CourseDyn
  files : List MediaFileDyn

/-- The list comprehension over `media_details["details"]["files"]`
(echo_client.py, lines 345 to 352). -/
def extractFiles : List Json → Except PyError (List MediaFileDyn)
  | [] => .ok []
  | f :: rest => do
    let name ← f.get "name"
    let size ← f.get "fileSize"
    let processed ← f.get "isProcessedFile"
    let others ← extractFiles rest
    pure (⟨name, size, processed⟩ :: others)

/-- `EchoClient.get_media` (echo_client.py, lines 318 to 362), applied to
the media-details payload `md` already extracted by `get_media_details`:
take the first element of each published-identifier list, unpack the first
element of the `id` values of the organization and department lookup tables
keyed by the resolved course id, build the course and lesson from the
`coursesById` and `lessonsById` tables, and map the file entries verbatim. -/
def getMedia (mediaId : String) (md : Json) : Except PyError MediaDyn := do
  let courseId ← (← (← md.get "media").get "publishedCourseIds").iterFirst
  let sectionId ← (← (← md.get "media").get "publishedSectionIds").iterFirst
  let lessonId ← (← (← md.get "media").get "publishedLessonIds").iterFirst
  let organizationId ←
    (← (← (← (← md.get "details").get "publishedOrgsByCourseId").index courseId).get "id").iterFirst
  let departmentId ←
    (← (← (← (← md.get "details").get "publishedDeptsByCourseId").index courseId).get "id").iterFirst
  let courseName ← (← (← md.get "coursesById").index courseId).get "name"
  let courseCode ← (← (← md.get "coursesById").index courseId).get "identifier"
  let lessonName ← (← (← md.get "lessonsById").index lessonId).get "name"
  let fileEntries ← (← (← md.get "details").get "files").iterList
  let files ← extractFiles fileEntries
  pure
    { organization_id := organizationId
      department_id := departmentId
      section_id := sectionId
      media_id := mediaId
      lesson := ⟨lessonId, lessonName⟩
      course := ⟨courseId, courseName, courseCode⟩
      files := files }

/-! ## Concrete fixtures used by the witness theorems -/

/-- A fresh index database, as created by `Index._initialize_index`. -/
def emptyIndex : IndexState := ⟨[], [], []⟩

/-- A processed media file. -/
def sampleFileA : MediaFile := ⟨"a.mp4", 7, true⟩

/-- An unprocessed media file. -/
def sampleFileB : MediaFile := ⟨"b.tmp", 3, false⟩

/-- A media item with one processed and one unprocessed file. -/
def sampleMedia : Media :=
  ⟨"o1", "d1", "s1", "m1", ⟨"l1", "Lesson One"⟩, ⟨"c1", "Course One", "COD"⟩,
   [sampleFileA, sampleFileB]⟩

/-- A media-details payload carrying every key `get_media` expects, whose
organization and department ids are the strings ORG1 and DEPT1. -/
def samplePayload : Json :=
  .obj [
    ("media", .obj [
      ("publishedCourseIds", .arr [.str "c1", .str "c2"]),
      ("publishedSectionIds", .arr [.str "s1"]),
      ("publishedLessonIds", .arr [.str "l1"])]),
    ("details", .obj [
      ("publishedOrgsByCourseId", .obj [("c1", .obj [("id", .str "ORG1")])]),
      ("publishedDeptsByCourseId", .obj [("c1", .obj [("id", .str "DEPT1")])]),
      ("files", .arr [
        .obj [("name", .str "a.mp4"), ("fileSize", .num 7),
              ("isProcessedFile", .bool true)]])]),
    ("coursesById", .obj [("c1", .obj [("name", .str "Course One"),
                                       ("identifier", .str "COD")])]),
    ("lessonsById", .obj [("l1", .obj [("name", .str "Lesson One")])])]

/-- The Media value `get_media` builds from `samplePayload`: note that the
organization and department ids come out as the one-character strings O
and D, the first characters of ORG1 and DEPT1. -/
def sampleMediaOut : MediaDyn :=
  { organization_id := .str "O"
    department_id := .str "D"
    section_id := .str "s1"
    media_id := "m1"
    lesson := ⟨.str "l1", .str "Lesson One"⟩
    course := ⟨.str "c1", .str "Course One", .str "COD"⟩
    files := [⟨.str "a.mp4", .num 7, .bool true⟩] }

/-- A sequence of upserts applied in order. -/
def upsertFold {α : Type} (key : α → String) (rows : List α) (t : List α) : List α :=
  rows.foldl (fun acc r => upsertBy key r acc) t

/-- The last row of a sequence carrying the same key as `x`, defaulting to
`x` itself. -/
def lastUpd {α : Type} (key : α → String) (rows : List α) (x : α) : α :=
  (rows.reverse.find? (fun r => key r == key x)).getD x

/-- Every DownloadRecord creation in a trace is preceded by the completed
download and write of the same file. -/
def recordsFollowWrites (evs : List Event) : Prop :=
  ∀ m f l1 l2, evs = l1 ++ Event.recordCreated m f :: l2 →
    Event.downloadComplete m f ∈ l1

/-- The course row upserted for a media item. -/
def courseRowOf (media : Media) : CourseRow :=
  ⟨media.course.id, media.course.name, media.course.code⟩

/-- The lesson row upserted for a media item. -/
def lessonRowOf (media : Media) : LessonRow :=
  ⟨media.lesson.id, media.lesson.name, media.course.id⟩

/-! ## Theorems -/

/-! Helper lemmas about the upsert on keyed tables. -/

/-- Unfolding of the upsert when the key is already present. -/
theorem upsertBy_of_mem {α : Type} (key : α → String) (row : α) (t : List α)
    (h : key row ∈ t.map key) :
    upsertBy key row t = t.map (fun r => if key r = key row then row else r) := by
  unfold upsertBy
  rw [if_pos h]

/-- Unfolding of the upsert when the key is absent. -/
theorem upsertBy_of_not_mem {α : Type} (key : α → String) (row : α) (t : List α)
    (h : key row ∉ t.map key) :
    upsertBy key row t = t ++ [row] := by
  unfold upsertBy
  rw [if_neg h]

/-- The in-place update of an upsert preserves the table keys. -/
theorem upsertBy_map_key_of_mem {α : Type} (key : α → String) (row : α) (t : List α) :
    (t.map (fun r => if key r = key row then row else r)).map key = t.map key := by
  rw [List.map_map]
  refine List.map_congr_left ?_
  intro r _
  by_cases hk : key r = key row
  · simp [hk]
  · simp [hk]

/-- Upserting the same row twice is the same as upserting it once. -/
theorem upsertBy_idem {α : Type} (key : α → String) (row : α) (t : List α) :
    upsertBy key row (upsertBy key row t) = upsertBy key row t := by
  by_cases h : key row ∈ t.map key
  · rw [upsertBy_of_mem key row t h,
      upsertBy_of_mem key row _ (by rw [upsertBy_map_key_of_mem]; exact h),
      List.map_map]
    refine List.map_congr_left ?_
    intro r _
    by_cases hk : key r = key row
    · simp [hk]
    · simp [hk]
  · rw [upsertBy_of_not_mem key row t h,
      upsertBy_of_mem key row _ (by simp), List.map_append]
    have h1 : t.map (fun r => if key r = key row then row else r) = t := by
      have hc : ∀ r ∈ t, (if key r = key row then row else r) = r := by
        intro r hr
        rw [if_neg]
        intro e
        exact h (e ▸ List.mem_map_of_mem key hr)
      rw [List.map_congr_left hc, List.map_id']
    rw [h1]
    simp

/-- Upserts with distinct keys commute up to permutation of the rows. -/
theorem upsertBy_comm {α : Type} (key : α → String) (r1 r2 : α) (t : List α)
    (h : key r1 ≠ key r2) :
    (upsertBy key r1 (upsertBy key r2 t)).Perm
      (upsertBy key r2 (upsertBy key r1 t)) := by
  by_cases h2 : key r2 ∈ t.map key
  · by_cases h1 : key r1 ∈ t.map key
    · rw [upsertBy_of_mem key r2 t h2,
        upsertBy_of_mem key r1 _ (by rw [upsertBy_map_key_of_mem]; exact h1),
        upsertBy_of_mem key r1 t h1,
        upsertBy_of_mem key r2 _ (by rw [upsertBy_map_key_of_mem]; exact h2),
        List.map_map, List.map_map]
      refine List.Perm.of_eq (List.map_congr_left ?_)
      intro r _
      by_cases hk1 : key r = key r1
      · have hk2 : ¬ key r = key r2 := by rw [hk1]; exact h
        simp [Function.comp, hk1, hk2, h]
      · by_cases hk2 : key r = key r2
        · have hne : ¬ key r2 = key r1 := fun e => h e.symm
          simp [Function.comp, hk1, hk2, hne]
        · simp [Function.comp, hk1, hk2]
    · rw [upsertBy_of_mem key r2 t h2,
        upsertBy_of_not_mem key r1 _ (by rw [upsertBy_map_key_of_mem]; exact h1),
        upsertBy_of_not_mem key r1 t h1,
        upsertBy_of_mem key r2 _ (by rw [List.map_append]; simp [h2]),
        List.map_append]
      refine List.Perm.of_eq ?_
      have hne : ¬ key r1 = key r2 := h
      simp [hne]
  · by_cases h1 : key r1 ∈ t.map key
    · rw [upsertBy_of_not_mem key r2 t h2,
        upsertBy_of_mem key r1 _ (by rw [List.map_append]; simp [h1]),
        upsertBy_of_mem key r1 t h1,
        upsertBy_of_not_mem key r2 _ (by rw [upsertBy_map_key_of_mem]; exact h2),
        List.map_append]
      refine List.Perm.of_eq ?_
      have hne : ¬ key r2 = key r1 := fun e => h e.symm
      simp [hne]
    · have hne12 : ¬ key r1 = key r2 := h
      have hne21 : ¬ key r2 = key r1 := fun e => h e.symm
      rw [upsertBy_of_not_mem key r2 t h2,
        upsertBy_of_not_mem key r1 _
          (by rw [List.map_append]; simp [h1, hne12]),
        upsertBy_of_not_mem key r1 t h1,
        upsertBy_of_not_mem key r2 _
          (by rw [List.map_append]; simp [h2, hne21]),
        List.append_assoc, List.append_assoc]
      exact List.Perm.append_left t (List.Perm.swap r1 r2 [])

/-- After an upsert into a table whose keys are unique, exactly one row
carries the upserted key, and it is the upserted row. -/
theorem upsertBy_filter_key {α : Type} (key : α → String) (row : α) (t : List α)
    (hnd : (t.map key).Nodup) :
    (upsertBy key row t).filter (fun r => key r == key row) = [row] := by
  induction t with
  | nil =>
    rw [upsertBy_of_not_mem key row [] (by simp)]
    simp
  | cons x t ih =>
    have hnd2 : key x ∉ t.map key ∧ (t.map key).Nodup := by
      simpa [List.nodup_cons] using hnd
    by_cases hx : key x = key row
    · have hmem : key row ∈ (x :: t).map key := by
        rw [List.map_cons]
        exact List.mem_cons.mpr (Or.inl hx.symm)
      rw [upsertBy_of_mem key row _ hmem, List.map_cons, if_pos hx,
        List.filter_cons_of_pos (by simp)]
      have hrest : (t.map (fun r => if key r = key row then row else r)).filter
          (fun r => key r == key row) = [] := by
        rw [List.filter_eq_nil_iff]
        intro a ha
        rcases List.mem_map.mp ha with ⟨r, hr, hrfl⟩
        have hkr : ¬ key r = key row := fun e =>
          hnd2.1 (by rw [hx, ← e]; exact List.mem_map_of_mem key hr)
        rw [← hrfl, if_neg hkr]
        simpa using hkr
      rw [hrest]
    · by_cases ht : key row ∈ t.map key
      · have hmem : key row ∈ (x :: t).map key := by
          rw [List.map_cons]
          exact List.mem_cons.mpr (Or.inr ht)
        rw [upsertBy_of_mem key row _ hmem, List.map_cons, if_neg hx,
          List.filter_cons_of_neg (by simpa using hx)]
        have hih := ih hnd2.2
        rwa [upsertBy_of_mem key row t ht] at hih
      · have hmem : key row ∉ (x :: t).map key := by
          rw [List.map_cons]
          intro hc
          rcases List.mem_cons.mp hc with hc | hc
          · exact hx hc.symm
          · exact ht hc
        rw [upsertBy_of_not_mem key row _ hmem, List.cons_append,
          List.filter_cons_of_neg (by simpa using hx), List.filter_append]
        have h1 : t.filter (fun r => key r == key row) = [] := by
          rw [List.filter_eq_nil_iff]
          intro a ha hk
          have : key a = key row := by simpa using hk
          exact ht (this ▸ List.mem_map_of_mem key ha)
        rw [h1, List.nil_append]
        simp

/-- An upsert never removes a key from the table. -/
theorem upsertBy_key_mono {α : Type} (key : α → String) (row : α) (t : List α)
    (k : String) (h : k ∈ t.map key) : k ∈ (upsertBy key row t).map key := by
  by_cases hmem : key row ∈ t.map key
  · rwa [upsertBy_of_mem key row t hmem, upsertBy_map_key_of_mem]
  · rw [upsertBy_of_not_mem key row t hmem, List.map_append]
    exact List.mem_append_left _ h

/-- An upsert puts its own key into the table. -/
theorem upsertBy_key_self {α : Type} (key : α → String) (row : α) (t : List α) :
    key row ∈ (upsertBy key row t).map key := by
  by_cases hmem : key row ∈ t.map key
  · rwa [upsertBy_of_mem key row t hmem, upsertBy_map_key_of_mem]
  · rw [upsertBy_of_not_mem key row t hmem, List.map_append]
    exact List.mem_append_right _ (by simp)

/-- A fold of upserts never removes a key from the table. -/
theorem upsertFold_key_mono {α : Type} (key : α → String) (rows : List α)
    (t : List α) (k : String) (h : k ∈ t.map key) :
    k ∈ (upsertFold key rows t).map key := by
  induction rows generalizing t with
  | nil => exact h
  | cons r rest ih => exact ih (upsertBy key r t) (upsertBy_key_mono key r t k h)

/-- After a fold of upserts, the key of every upserted row is in the
table. -/
theorem upsertFold_key_complete {α : Type} (key : α → String) (rows : List α)
    (t : List α) (r : α) (hr : r ∈ rows) :
    key r ∈ (upsertFold key rows t).map key := by
  induction rows generalizing t with
  | nil => cases hr
  | cons q rest ih =>
    rcases List.mem_cons.mp hr with hq | hq
    · subst hq
      exact upsertFold_key_mono key rest _ (key r) (upsertBy_key_self key r t)
    · exact ih (upsertBy key q t) hq

/-- Rows whose key is never upserted by the fold come from the original
table. -/
theorem upsertFold_mem_of_untouched {α : Type} (key : α → String)
    (rows : List α) (t : List α) (x : α)
    (hx : x ∈ upsertFold key rows t) (huntouched : ∀ q ∈ rows, key q ≠ key x) :
    x ∈ t := by
  induction rows generalizing t with
  | nil => exact hx
  | cons q rest ih =>
    have hq : key q ≠ key x := huntouched q (by simp)
    have hx2 : x ∈ upsertBy key q t :=
      ih (upsertBy key q t) hx (fun p hp => huntouched p (List.mem_cons_of_mem q hp))
    by_cases hmem : key q ∈ t.map key
    · rw [upsertBy_of_mem key q t hmem] at hx2
      rcases List.mem_map.mp hx2 with ⟨x0, hx0, hrfl⟩
      by_cases hk : key x0 = key q
      · rw [if_pos hk] at hrfl
        exact absurd (hrfl ▸ rfl : key q = key x) hq
      · rw [if_neg hk] at hrfl
        rwa [← hrfl]
    · rw [upsertBy_of_not_mem key q t hmem] at hx2
      rcases List.mem_append.mp hx2 with h | h
      · exact h
      · have hxq : x = q := by simpa using h
        exact (hq (by rw [hxq])).elim

/-- A fold of upserts whose keys are all already present rewrites each row
in place to the last upserted row with its key. -/
theorem upsertFold_eq_map_lastUpd {α : Type} (key : α → String) (rows : List α)
    (t : List α) (h : ∀ r ∈ rows, key r ∈ t.map key) :
    upsertFold key rows t = t.map (lastUpd key rows) := by
  induction rows generalizing t with
  | nil =>
    have : ∀ x ∈ t, lastUpd key ([] : List α) x = x := by
      intro x _
      rfl
    rw [List.map_congr_left this, List.map_id']
    rfl
  | cons r rest ih =>
    have hr : key r ∈ t.map key := h r (by simp)
    have hfold : upsertFold key (r :: rest) t =
        upsertFold key rest (upsertBy key r t) := rfl
    rw [hfold, upsertBy_of_mem key r t hr]
    have hkeys : ∀ q ∈ rest,
        key q ∈ (t.map (fun x => if key x = key r then r else x)).map key := by
      intro q hq
      rw [upsertBy_map_key_of_mem]
      exact h q (List.mem_cons_of_mem r hq)
    rw [ih _ hkeys, List.map_map]
    refine List.map_congr_left ?_
    intro x _
    show lastUpd key rest (if key x = key r then r else x) =
      lastUpd key (r :: rest) x
    have hkey : key (if key x = key r then r else x) = key x := by
      by_cases hk : key x = key r
      · simp [hk]
      · simp [hk]
    unfold lastUpd
    rw [hkey]
    rw [List.reverse_cons, List.find?_append]
    cases hf : rest.reverse.find? (fun q => key q == key x) with
    | some y => simp
    | none =>
      simp only [Option.none_or]
      by_cases hk : key x = key r
      · have : (key r == key x) = true := by simp [hk]
        simp [List.find?_cons, this, hk]
      · have : (key r == key x) = false := by
          simpa using fun e => hk e.symm
        simp [List.find?_cons, this, hk]

/-- Every row of the result of a fold of upserts already carries the last
upserted value for its key. -/
theorem upsertFold_lastUpd_fixed {α : Type} (key : α → String) (rows : List α)
    (t : List α) (x : α) (hx : x ∈ upsertFold key rows t) :
    lastUpd key rows x = x := by
  induction rows generalizing t with
  | nil => rfl
  | cons r rest ih =>
    have hx2 : x ∈ upsertFold key rest (upsertBy key r t) := hx
    have hih := ih (upsertBy key r t) hx2
    unfold lastUpd at hih ⊢
    rw [List.reverse_cons, List.find?_append]
    cases hf : rest.reverse.find? (fun q => key q == key x) with
    | some y =>
      rw [hf] at hih
      simpa using hih
    | none =>
      simp only [Option.none_or]
      by_cases hk : key r = key x
      · have huntouched : ∀ q ∈ rest, key q ≠ key x := by
          intro q hq
          have := List.find?_eq_none.mp hf q (List.mem_reverse.mpr hq)
          simpa using this
        have hxin : x ∈ upsertBy key r t :=
          upsertFold_mem_of_untouched key rest _ x hx2 huntouched
        have hxr : x = r := by
          by_cases hmem : key r ∈ t.map key
          · rw [upsertBy_of_mem key r t hmem] at hxin
            rcases List.mem_map.mp hxin with ⟨x0, hx0, hrfl⟩
            by_cases hk0 : key x0 = key r
            · rw [if_pos hk0] at hrfl
              exact hrfl.symm
            · rw [if_neg hk0] at hrfl
              rw [← hrfl] at hk
              exact absurd hk.symm hk0
          · rw [upsertBy_of_not_mem key r t hmem] at hxin
            rcases List.mem_append.mp hxin with h | h
            · exact absurd (by rw [hk]; exact List.mem_map_of_mem key h) hmem
            · exact (by simpa using h)
        have hb : (key r == key x) = true := by simp [hk]
        simp [List.find?_cons, hb, hxr]
      · have hb : (key r == key x) = false := by simpa using hk
        simp [List.find?_cons, hb]

/-- Replaying an identical sequence of upserts leaves the table
unchanged. -/
theorem upsertFold_replay {α : Type} (key : α → String) (rows : List α)
    (t : List α) :
    upsertFold key rows (upsertFold key rows t) = upsertFold key rows t := by
  rw [upsertFold_eq_map_lastUpd key rows _
    (fun r hr => upsertFold_key_complete key rows t r hr)]
  have : ∀ x ∈ upsertFold key rows t, lastUpd key rows x = x :=
    fun x hx => upsertFold_lastUpd_fixed key rows t x hx
  rw [List.map_congr_left this, List.map_id']

/-- An upsert preserves uniqueness of the table keys. -/
theorem upsertBy_map_key_nodup {α : Type} (key : α → String) (row : α)
    (t : List α) (hnd : (t.map key).Nodup) :
    ((upsertBy key row t).map key).Nodup := by
  by_cases h : key row ∈ t.map key
  · rw [upsertBy_of_mem key row t h, upsertBy_map_key_of_mem]
    exact hnd
  · rw [upsertBy_of_not_mem key row t h, List.map_append, List.nodup_append]
    refine ⟨hnd, List.nodup_singleton _, ?_⟩
    intro a ha hb
    have hak : a = key row := by simpa using hb
    exact h (hak ▸ ha)

/-! Helper lemmas about the query-string grouping and first-value
extraction. -/

/-- Groups built by the `parse_qs` fold always carry a nonempty value
list. -/
theorem addParam_ne_nil (acc : List (String × List String)) (p : String × String)
    (hne : ∀ g ∈ acc, g.2 ≠ []) :
    ∀ g ∈ addParam acc p, g.2 ≠ [] := by
  intro g hg
  unfold addParam at hg
  by_cases h : acc.any (fun q => q.1 == p.1) = true
  · rw [if_pos h] at hg
    rcases List.mem_map.mp hg with ⟨q, hq, hrfl⟩
    by_cases hqp : (q.1 == p.1) = true
    · rw [← hrfl, if_pos hqp]
      simp
    · rw [← hrfl, if_neg (by simp [hqp])]
      exact hne q hq
  · rw [if_neg h] at hg
    rcases List.mem_append.mp hg with hg | hg
    · exact hne g hg
    · have : g = (p.1, [p.2]) := by simpa using hg
      rw [this]
      simp

/-- Adding a pair whose name already has a group does not change the
first-value view; a fresh name appends its first value at the end. -/
theorem singularize_addParam (acc : List (String × List String))
    (p : String × String) (hne : ∀ g ∈ acc, g.2 ≠ []) :
    singularize (addParam acc p) =
      if acc.any (fun q => q.1 == p.1) then singularize acc
      else singularize acc ++ [(p.1, p.2)] := by
  unfold addParam
  by_cases h : acc.any (fun q => q.1 == p.1) = true
  · rw [if_pos h, if_pos h]
    unfold singularize
    rw [List.filterMap_map]
    refine List.filterMap_congr ?_
    intro q hq
    by_cases hqp : (q.1 == p.1) = true
    · rcases List.exists_cons_of_ne_nil (hne q hq) with ⟨v, vs, hv⟩
      simp [Function.comp, hqp, hv]
    · simp [Function.comp, hqp]
  · rw [if_neg h, if_neg h]
    unfold singularize
    rw [List.filterMap_append]
    simp

/-- When no group carries the name, the first-value view has no entry for
it. -/
theorem lookupParam_singularize_none (acc : List (String × List String))
    (k : String) (h : acc.any (fun q => q.1 == k) = false) :
    lookupParam (singularize acc) k = none := by
  unfold lookupParam
  rw [List.find?_eq_none.mpr, Option.map_none']
  intro x hx
  rcases List.mem_filterMap.mp hx with ⟨g, hg, hfx⟩
  rcases Option.map_eq_some'.mp hfx with ⟨v, _, hxv⟩
  have hg1 : ¬ (g.1 == k) = true := (List.any_eq_false.mp h) g hg
  rw [← hxv]
  simpa using fun e => hg1 (by simp [e])

/-- When some group carries the name and groups are nonempty, the
first-value view has an entry for it. -/
theorem lookupParam_singularize_isSome (acc : List (String × List String))
    (k : String) (hne : ∀ g ∈ acc, g.2 ≠ [])
    (h : acc.any (fun q => q.1 == k) = true) :
    (lookupParam (singularize acc) k).isSome = true := by
  rcases List.any_eq_true.mp h with ⟨g, hg, hgk⟩
  rcases List.exists_cons_of_ne_nil (hne g hg) with ⟨v, vs, hv⟩
  unfold lookupParam
  rw [Option.isSome_map']
  rw [List.find?_isSome]
  exact ⟨(g.1, v), List.mem_filterMap.mpr ⟨g, hg, by rw [hv]; rfl⟩, hgk⟩

/-- First-value extraction through the `parse_qs` fold: looking up a name
in the singular view of the grouped parameters yields the first value the
raw pair list assigns to that name. -/
theorem foldl_addParam_lookup (pairs : List (String × String))
    (acc : List (String × List String)) (hne : ∀ g ∈ acc, g.2 ≠ [])
    (k : String) :
    lookupParam (singularize (pairs.foldl addParam acc)) k =
      (lookupParam (singularize acc) k).or
        ((pairs.find? (fun p => p.1 == k)).map (fun p => p.2)) := by
  induction pairs generalizing acc with
  | nil =>
    simp [Option.or_none]
  | cons p rest ih =>
    rw [List.foldl_cons, ih (addParam acc p) (addParam_ne_nil acc p hne),
      singularize_addParam acc p hne]
    by_cases hpk : p.1 = k
    · have hbeq : (p.1 == k) = true := by simp [hpk]
      have hfind : List.find? (fun q => q.1 == k) (p :: rest) = some p := by
        simp [List.find?_cons, hbeq]
      by_cases hmem : acc.any (fun q => q.1 == p.1) = true
      · rw [if_pos hmem]
        have hsome := lookupParam_singularize_isSome acc k hne
          (by rw [← hpk]; exact hmem)
        rcases Option.isSome_iff_exists.mp hsome with ⟨w, hw⟩
        rw [hw, hfind]
        simp
      · rw [if_neg hmem]
        have hnone := lookupParam_singularize_none acc k
          (by rw [← hpk]; exact Bool.eq_false_iff.mpr hmem)
        rw [hnone, hfind]
        unfold lookupParam at hnone ⊢
        rcases Option.map_eq_none'.mp hnone with hfindnone
        rw [List.find?_append, hfindnone]
        have hsingle : List.find? (fun q => q.1 == k) [(p.1, p.2)] =
            some (p.1, p.2) := by
          simp [List.find?_cons, hbeq]
        rw [hsingle]
        simp
    · have hbeq : (p.1 == k) = false := by simp [hpk]
      have hfind : List.find? (fun q => q.1 == k) (p :: rest) =
          List.find? (fun q => q.1 == k) rest := by
        simp [List.find?_cons, hbeq]
      by_cases hmem : acc.any (fun q => q.1 == p.1) = true
      · rw [if_pos hmem, hfind]
      · rw [if_neg hmem, hfind]
        unfold lookupParam
        rw [List.find?_append]
        have hsingle : List.find? (fun q => q.1 == k) [(p.1, p.2)] = none := by
          simp [List.find?_cons, hbeq]
        rw [hsingle, Option.or_none]

/-- Percent-decoding never turns a nonempty string into an empty one. -/
theorem percentDecode_ne_nil (l : List Char) (hl : l ≠ []) :
    percentDecode l ≠ [] := by
  unfold percentDecode
  split
  · exact absurd rfl hl
  · split <;> simp
  · simp

/-- The value decoding of `parse_qsl` yields the empty string only for the
empty string. -/
theorem unquotePlus_eq_empty (s : String) : unquotePlus s = "" ↔ s = "" := by
  constructor
  · intro h
    have hd : percentDecode (s.data.map (fun c => if c = '+' then ' ' else c)) = [] := by
      have hcongr := congrArg String.data h
      simpa [unquotePlus] using hcongr
    by_contra hs
    have hne : s.data.map (fun c => if c = '+' then ' ' else c) ≠ [] := by
      rw [Ne, List.map_eq_nil_iff]
      intro e
      exact hs (String.ext (by simpa using e))
    exact percentDecode_ne_nil _ hne hd
  · intro h
    rw [h]
    rfl

/-- Reduction of monadic bind on a successful result. -/
theorem exceptBindOk {ε α β : Type} (a : α) (g : α → Except ε β) :
    ((Except.ok a : Except ε α) >>= g) = g a := rfl

/-- Reduction of monadic bind on a pure value. -/
theorem exceptPureBind {ε α β : Type} (a : α) (g : α → Except ε β) :
    ((pure a : Except ε α) >>= g) = g a := rfl

/-- Reduction of monadic bind on a raised error. -/
theorem exceptBindError {ε α β : Type} (e : ε) (g : α → Except ε β) :
    ((Except.error e : Except ε α) >>= g) = .error e := rfl

/-- Reduction of the functor map on a successful result. -/
theorem exceptMapOk {ε α β : Type} (g : α → β) (a : α) :
    (g <$> (Except.ok a : Except ε α)) = .ok (g a) := rfl

/-- Reduction of the functor map on a raised error. -/
theorem exceptMapError {ε α β : Type} (g : α → β) (e : ε) :
    (g <$> (Except.error e : Except ε α)) = .error e := rfl

/-- Dropping blank values is a filter: strict parsing with
`keep_blank_values=False` returns exactly the pairs of strict parsing with
`keep_blank_values=True` whose value is nonempty. -/
theorem parseQslField_false_eq_filter (f : String) :
    parseQslField true false f =
      (parseQslField true true f).map (List.filter (fun p => !(p.2 == ""))) := by
  have hcond : ¬ (f = "" ∧ (true : Bool) = false) := by simp
  unfold parseQslField
  cases hs : splitNameValue f.data with
  | none =>
    simp only [if_neg hcond, hs]
    rfl
  | some nv =>
    obtain ⟨n, v⟩ := nv
    simp only [if_neg hcond, hs]
    by_cases hv : v = []
    · subst hv
      have hemp : unquotePlus ⟨([] : List Char)⟩ = "" := rfl
      simp [Except.map, hemp]
    · have hne : ¬ unquotePlus ⟨v⟩ = "" := fun e =>
        hv (by simpa [String.ext_iff] using (unquotePlus_eq_empty ⟨v⟩).mp e)
      have hbeq : (unquotePlus ⟨v⟩ == "") = false := by
        simpa using hne
      simp [Except.map, hv, hbeq]

/-- The filter relation lifted over the field loop. -/
theorem parseQslFields_false_eq_filter (fs : List String) :
    parseQslFields true false fs =
      (parseQslFields true true fs).map (List.filter (fun p => !(p.2 == ""))) := by
  induction fs with
  | nil => rfl
  | cons f rest ih =>
    rw [parseQslFields, parseQslFields, parseQslField_false_eq_filter f, ih]
    cases h1 : parseQslField true true f with
    | error e => simp [exceptBindError, exceptMapError, Except.map]
    | ok lf =>
      cases h2 : parseQslFields true true rest with
      | error e =>
        simp [exceptBindOk, exceptBindError, exceptMapError, Except.map]
      | ok lr =>
        simp [exceptBindOk, exceptMapOk, Except.map, List.filter_append]

/-- The filter relation on whole query strings. -/
theorem parseQsl_false_eq_filter (qs : String) :
    parseQsl true false qs =
      (parseQsl true true qs).map (List.filter (fun p => !(p.2 == ""))) :=
  parseQslFields_false_eq_filter _

/-- C3: for every login completion response with HTTP status 200 whose
resulting cookie jar lacks any one of the six required cookies, login fails
with an authentication error rather than returning success. -/
theorem completeInstitutionLogin_missing_cookie_fails
    (cookieNames : List String) (c : String)
    (hc : c ∈ requiredCookies) (hmiss : c ∉ cookieNames) :
    completeInstitutionLogin 200 cookieNames =
      .error (PyError.echo "Failed to complete authentication: missing required cookies.") := by
  have hall : requiredCookies.all (fun c => cookieNames.contains c) = false := by
    rw [Bool.eq_false_iff]
    intro h
    exact hmiss (by simpa using List.all_eq_true.mp h c hc)
  unfold completeInstitutionLogin
  rw [if_neg (by simp), if_pos (by simp only [hall]; simp)]

/-- C3 witness: a 200 response whose jar holds only the session token is
rejected for lacking PLAY_SESSION. -/
theorem completeInstitutionLogin_missing_cookie_fails_witness :
    completeInstitutionLogin 200 ["ECHO_JWT"] =
      .error (PyError.echo "Failed to complete authentication: missing required cookies.") :=
  completeInstitutionLogin_missing_cookie_fails ["ECHO_JWT"] "PLAY_SESSION"
    (by simp [requiredCookies]) (by simp)

/-- C4: a media file with `is_processed = false` is skipped outright by
`_save_media_file`: no download, no index row, and no index interaction at
all for that file (not even an existence check), whatever the index state
left by prior runs and whatever the download oracle would do. -/
theorem saveMediaFile_unprocessed_skips
    (dl : String → String → Bool) (media : Media) (file : MediaFile)
    (s : IndexState) (h : file.is_processed = false) :
    saveMediaFile dl media file s = ⟨s, [], none⟩ := by
  simp [saveMediaFile, h]

/-- C4 witness: the unprocessed file `b.tmp` is skipped with an empty trace
and an unchanged index, even with an always-succeeding download oracle. -/
theorem saveMediaFile_unprocessed_skips_witness :
    saveMediaFile (fun _ _ => true) sampleMedia sampleFileB emptyIndex =
      ⟨emptyIndex, [], none⟩ :=
  saveMediaFile_unprocessed_skips (fun _ _ => true) sampleMedia sampleFileB
    emptyIndex rfl

/-- C8 (behavior of the code at the failing input): when the 3-step login
raises during `with echo_client:` scope entry, `EchoClient.__exit__` is
never invoked, so the transport session created for that attempt stays
open; on the paths where entry succeeded, the session is closed even when
the body raises. The claim that the connection is released on every exit
path, including a login failure during entry, is therefore violated by the
code. -/
theorem withEchoClient_login_failure_leaks_session
    (e : PyError) (u : EchoUser) (bodyErr : Option PyError) :
    withEchoClient (.error e) bodyErr = (⟨true⟩, some e) ∧
    withEchoClient (.ok u) bodyErr = (⟨false⟩, bodyErr) :=
  ⟨rfl, rfl⟩

/-- C5: inserting a DownloadRecord for a composite key `(media_id,
file_name)` not yet present succeeds; a second insert with the same key
raises the distinct duplicate-key IntegrityError and leaves the first
record in place; and no index operation ever mutates or deletes an
existing DownloadRecord (course and lesson upserts do not touch the media
table, and a successful insert only appends). -/
theorem createMedia_duplicate_key
    (s : IndexState) (mid fn lid lid2 : String)
    (h : hasMedia s mid fn = false) :
    ∃ s1, createMedia s mid fn lid = .ok s1 ∧
      (⟨mid, fn, lid⟩ : MediaRow) ∈ s1.media ∧
      createMedia s1 mid fn lid2 =
        .error (PyError.integrityError "UNIQUE constraint failed: media.id, media.file_name") ∧
      (∀ a b c, (createCourseOrUpdate s1 a b c).media = s1.media) ∧
      (∀ a b c, (createLessonOrUpdate s1 a b c).media = s1.media) ∧
      (∀ m2 f2 l2 s2, createMedia s1 m2 f2 l2 = .ok s2 → ∀ r ∈ s1.media, r ∈ s2.media) := by
  refine ⟨{ s with media := s.media ++ [⟨mid, fn, lid⟩] }, ?_, ?_, ?_, ?_, ?_, ?_⟩
  · simp [createMedia, h]
  · simp
  · have hdup : hasMedia { s with media := s.media ++ [⟨mid, fn, lid⟩] } mid fn = true := by
      simp [hasMedia]
    simp [createMedia, hdup]
  · intro a b c; rfl
  · intro a b c; rfl
  · intro m2 f2 l2 s2 hok r hr
    unfold createMedia at hok
    split at hok
    · cases hok
    · cases hok
      exact List.mem_append_left _ hr

/-- C5 witness: on a fresh index, the first insert of `(m1, a.mp4)`
succeeds and the second raises the duplicate-key error. -/
theorem createMedia_duplicate_key_witness :
    ∃ s1, createMedia emptyIndex "m1" "a.mp4" "l1" = .ok s1 ∧
      createMedia s1 "m1" "a.mp4" "l1" =
        .error (PyError.integrityError "UNIQUE constraint failed: media.id, media.file_name") := by
  obtain ⟨s1, h1, _, h3, _⟩ :=
    createMedia_duplicate_key emptyIndex "m1" "a.mp4" "l1" "l1" rfl
  exact ⟨s1, h1, h3⟩

/-- C6: course upserts are idempotent and last-write-wins on the id key:
upserting `(id, n1, c1)` and then `(id, n2, c2)` into a table with unique
ids leaves exactly one course row with that id, carrying the second name
and code; repeating the same upsert changes nothing; and upserts of
distinct ids commute, leaving the same final table state up to row order. -/
theorem createCourseOrUpdate_upsert_semantics
    (s : IndexState) (id n1 c1 n2 c2 : String)
    (hnd : (s.courses.map CourseRow.id).Nodup) :
    ((createCourseOrUpdate (createCourseOrUpdate s id n1 c1) id n2 c2).courses.filter
        (fun r => r.id == id) = [⟨id, n2, c2⟩]) ∧
    (∀ a b c, createCourseOrUpdate (createCourseOrUpdate s a b c) a b c =
        createCourseOrUpdate s a b c) ∧
    (∀ a b c a2 b2 c2x, a ≠ a2 →
      ((createCourseOrUpdate (createCourseOrUpdate s a2 b2 c2x) a b c).courses).Perm
        ((createCourseOrUpdate (createCourseOrUpdate s a b c) a2 b2 c2x).courses)) := by
  refine ⟨?_, ?_, ?_⟩
  · have h := upsertBy_filter_key CourseRow.id (⟨id, n2, c2⟩ : CourseRow)
      (upsertBy CourseRow.id ⟨id, n1, c1⟩ s.courses)
      (upsertBy_map_key_nodup CourseRow.id ⟨id, n1, c1⟩ s.courses hnd)
    simpa [createCourseOrUpdate] using h
  · intro a b c
    simp [createCourseOrUpdate, upsertBy_idem]
  · intro a b c a2 b2 c2x hne
    have h := upsertBy_comm CourseRow.id (⟨a, b, c⟩ : CourseRow)
      (⟨a2, b2, c2x⟩ : CourseRow) s.courses (by simpa using hne)
    simpa [createCourseOrUpdate] using h

/-- C6 witness: on an empty course table, upserting `(C1, Old, COD)` then
`(C1, New, COD)` leaves exactly the row `(C1, New, COD)`. -/
theorem createCourseOrUpdate_upsert_semantics_witness :
    (createCourseOrUpdate (createCourseOrUpdate emptyIndex "C1" "Old" "COD")
        "C1" "New" "COD").courses.filter (fun r => r.id == "C1") =
      [⟨"C1", "New", "COD"⟩] :=
  (createCourseOrUpdate_upsert_semantics emptyIndex "C1" "Old" "COD" "New" "COD"
    (by simp [emptyIndex])).1

/-- C7: whenever the query string of a URL parses (so in particular when a
parameter is assigned several values, which is not an error), the
singular-parameter extraction succeeds and maps each parameter name to the
first value the query assigns to it, discarding the rest. -/
theorem getUrlSingularQueryParams_first_value (url : String)
    (pairs : List (String × String)) (k : String)
    (hp : parseQsl true false (urlQuery url) = .ok pairs) :
    ∃ params, getUrlSingularQueryParams url = .ok params ∧
      lookupParam params k =
        (pairs.find? (fun p => p.1 == k)).map (fun p => p.2) := by
  refine ⟨singularize (pairs.foldl addParam []), ?_, ?_⟩
  · unfold getUrlSingularQueryParams parseQs
    rw [hp]
    rfl
  · have h := foldl_addParam_lookup pairs [] (by simp) k
    simpa [singularize, lookupParam] using h

/-- C7 witness: for the query `userId=a&userId=b` the extracted `userId`
is `a` and the extraction does not raise. -/
theorem getUrlSingularQueryParams_first_value_witness :
    ∃ params,
      getUrlSingularQueryParams "https://login.echo360.org.uk/x?userId=a&userId=b" =
        .ok params ∧
      lookupParam params "userId" = some "a" := by
  obtain ⟨params, h1, h2⟩ := getUrlSingularQueryParams_first_value
    "https://login.echo360.org.uk/x?userId=a&userId=b"
    [("userId", "a"), ("userId", "b")] "userId" (by decide)
  refine ⟨params, h1, ?_⟩
  rw [h2]
  decide

/-! Helper lemmas for the pipeline traces. -/

/-- A trace without record creations trivially orders records after
writes. -/
theorem recordsFollowWrites_of_no_record (evs : List Event)
    (h : ∀ m f, Event.recordCreated m f ∉ evs) : recordsFollowWrites evs := by
  intro m f l1 l2 he
  have hmem : Event.recordCreated m f ∈ evs := by
    rw [he]
    exact List.mem_append_right l1 (List.mem_cons_self _ _)
  exact absurd hmem (h m f)

/-- Concatenating two well-ordered traces yields a well-ordered trace. -/
theorem recordsFollowWrites_append (a b : List Event)
    (ha : recordsFollowWrites a) (hb : recordsFollowWrites b) :
    recordsFollowWrites (a ++ b) := by
  intro m f l1 l2 he
  rcases List.append_eq_append_iff.mp he with ⟨w, hw1, hw2⟩ | ⟨w, hw1, hw2⟩
  · rw [hw1]
    exact List.mem_append_right a (hb m f w l2 hw2)
  · cases w with
    | nil =>
      have hdl := hb m f [] l2 (by simpa using hw2.symm)
      exact absurd hdl (List.not_mem_nil _)
    | cons e w2 =>
      have h1 : Event.recordCreated m f = e ∧ l2 = w2 ++ b := by simpa using hw2
      exact ha m f l1 w2 (by rw [hw1, ← h1.1])

/-- The trace of one `_save_media_file` step orders every record creation
after the completed write of the same file. -/
theorem saveMediaFile_recordsFollowWrites (dl : String → String → Bool)
    (media : Media) (file : MediaFile) (s : IndexState) :
    recordsFollowWrites (saveMediaFile dl media file s).events := by
  unfold saveMediaFile
  split
  · exact recordsFollowWrites_of_no_record _ (by simp)
  · split
    · exact recordsFollowWrites_of_no_record _ (by simp)
    · split
      · split
        · intro m f l1 l2 he
          cases l1 with
          | nil => simp at he
          | cons e1 t1 =>
            cases t1 with
            | nil => simp at he
            | cons e2 t2 =>
              cases t2 with
              | nil =>
                simp only [List.cons_append, List.nil_append, List.cons.injEq,
                  Event.recordCreated.injEq] at he
                obtain ⟨h1, h2, ⟨hm, hf⟩, hl2⟩ := he
                rw [← hm, ← hf, h2]
                simp
              | cons e3 t3 => simp at he
        · exact recordsFollowWrites_of_no_record _ (by simp)
      · exact recordsFollowWrites_of_no_record _ (by simp)

/-- If the download of `(m, f)` raises, one `_save_media_file` step never
records `(m, f)` and never adds an index row for it. -/
theorem saveMediaFile_dl_false (dl : String → String → Bool)
    (media : Media) (file : MediaFile) (s : IndexState) (m f : String)
    (hdl : dl m f = false) :
    Event.recordCreated m f ∉ (saveMediaFile dl media file s).events ∧
    ∀ lid, (⟨m, f, lid⟩ : MediaRow) ∈ (saveMediaFile dl media file s).state.media →
      (⟨m, f, lid⟩ : MediaRow) ∈ s.media := by
  unfold saveMediaFile
  split
  · exact ⟨by simp, fun lid h => h⟩
  · split
    · exact ⟨by simp, fun lid h => h⟩
    · split
      · rename_i hproc hhas hdltrue
        have hne : ¬ (media.media_id = m ∧ file.name = f) := by
          rintro ⟨h1, h2⟩
          rw [h1, h2] at hdltrue
          rw [hdltrue] at hdl
          cases hdl
        split
        · rename_i s1 hcm
          constructor
          · intro hmem
            have h : m = media.media_id ∧ f = file.name := by simpa using hmem
            exact hne ⟨h.1.symm, h.2.symm⟩
          · intro lid hmem
            unfold createMedia at hcm
            split at hcm
            · cases hcm
            · cases hcm
              rcases List.mem_append.mp hmem with h | h
              · exact h
              · have hrow : m = media.media_id ∧ f = file.name ∧
                    lid = media.lesson.id := by simpa using h
                exact absurd ⟨hrow.1.symm, hrow.2.1.symm⟩ hne
        · exact ⟨by simp, fun lid h => h⟩
      · exact ⟨by simp, fun lid h => h⟩

/-- The file loop preserves the trace ordering and, for a file whose
download raises, creates no record and no index row. -/
theorem runFiles_record_discipline (dl : String → String → Bool)
    (media : Media) (files : List MediaFile) (s : IndexState) :
    recordsFollowWrites (runFiles dl media files s).events ∧
    (∀ m f, dl m f = false →
      Event.recordCreated m f ∉ (runFiles dl media files s).events ∧
      ∀ lid, (⟨m, f, lid⟩ : MediaRow) ∈ (runFiles dl media files s).state.media →
        (⟨m, f, lid⟩ : MediaRow) ∈ s.media) := by
  induction files generalizing s with
  | nil =>
    refine ⟨recordsFollowWrites_of_no_record _ (by simp [runFiles]), ?_⟩
    intro m f _
    exact ⟨by simp [runFiles], fun lid h => h⟩
  | cons file rest ih =>
    have hstep1 := saveMediaFile_recordsFollowWrites dl media file s
    cases herr : (saveMediaFile dl media file s).err with
    | some e =>
      have hres : runFiles dl media (file :: rest) s =
          ⟨(saveMediaFile dl media file s).state,
           (saveMediaFile dl media file s).events, some e⟩ := by
        simp [runFiles, herr]
      rw [hres]
      refine ⟨hstep1, ?_⟩
      intro m f hdl
      have hstep2 := saveMediaFile_dl_false dl media file s m f hdl
      exact ⟨hstep2.1, hstep2.2⟩
    | none =>
      have hres : runFiles dl media (file :: rest) s =
          ⟨(runFiles dl media rest (saveMediaFile dl media file s).state).state,
           (saveMediaFile dl media file s).events ++
             (runFiles dl media rest (saveMediaFile dl media file s).state).events,
           (runFiles dl media rest (saveMediaFile dl media file s).state).err⟩ := by
        simp [runFiles, herr]
      rw [hres]
      have hih := ih (saveMediaFile dl media file s).state
      refine ⟨recordsFollowWrites_append _ _ hstep1 hih.1, ?_⟩
      intro m f hdl
      have hstep2 := saveMediaFile_dl_false dl media file s m f hdl
      have hrest := hih.2 m f hdl
      constructor
      · intro hmem
        rcases List.mem_append.mp hmem with h | h
        · exact hstep2.1 h
        · exact hrest.1 h
      · intro lid hmem
        exact hstep2.2 lid (hrest.2 lid hmem)

/-- Course and lesson upserts never touch the media table. -/
theorem upserts_media_eq (s : IndexState) (media : Media) :
    (createLessonOrUpdate
        (createCourseOrUpdate s media.course.id media.course.name media.course.code)
        media.lesson.id media.lesson.name media.course.id).media = s.media := rfl

/-- C1: across a whole pipeline run, every DownloadRecord creation in the
trace happens strictly after the completed download and write of the same
file, and when the download or write of `(m, f)` raises, no record event
for `(m, f)` occurs and no index row for `(m, f)` is created in that run. -/
theorem runPipeline_record_after_write (dl : String → String → Bool)
    (medias : List Media) (s0 : IndexState) :
    recordsFollowWrites (runPipeline dl medias s0).events ∧
    (∀ m f, dl m f = false →
      Event.recordCreated m f ∉ (runPipeline dl medias s0).events ∧
      ∀ lid, (⟨m, f, lid⟩ : MediaRow) ∈ (runPipeline dl medias s0).state.media →
        (⟨m, f, lid⟩ : MediaRow) ∈ s0.media) := by
  induction medias generalizing s0 with
  | nil =>
    refine ⟨recordsFollowWrites_of_no_record _ (by simp [runPipeline]), ?_⟩
    intro m f _
    exact ⟨by simp [runPipeline], fun lid h => h⟩
  | cons media rest ih =>
    have hfiles := runFiles_record_discipline dl media media.files
      (createLessonOrUpdate
        (createCourseOrUpdate s0 media.course.id media.course.name media.course.code)
        media.lesson.id media.lesson.name media.course.id)
    cases herr : (downloadMediaIfNotExists dl media s0).err with
    | some e =>
      have hres : runPipeline dl (media :: rest) s0 =
          ⟨(downloadMediaIfNotExists dl media s0).state,
           (downloadMediaIfNotExists dl media s0).events, some e⟩ := by
        simp [runPipeline, herr]
      rw [hres]
      refine ⟨hfiles.1, ?_⟩
      intro m f hdl
      refine ⟨(hfiles.2 m f hdl).1, ?_⟩
      intro lid hmem
      have := (hfiles.2 m f hdl).2 lid hmem
      rwa [upserts_media_eq] at this
    | none =>
      have hres : runPipeline dl (media :: rest) s0 =
          ⟨(runPipeline dl rest (downloadMediaIfNotExists dl media s0).state).state,
           (downloadMediaIfNotExists dl media s0).events ++
             (runPipeline dl rest (downloadMediaIfNotExists dl media s0).state).events,
           (runPipeline dl rest (downloadMediaIfNotExists dl media s0).state).err⟩ := by
        simp [runPipeline, herr]
      rw [hres]
      have hih := ih (downloadMediaIfNotExists dl media s0).state
      refine ⟨recordsFollowWrites_append _ _ hfiles.1 hih.1, ?_⟩
      intro m f hdl
      constructor
      · intro hmem
        rcases List.mem_append.mp hmem with h | h
        · exact (hfiles.2 m f hdl).1 h
        · exact (hih.2 m f hdl).1 h
      · intro lid hmem
        have h1 := (hih.2 m f hdl).2 lid hmem
        have h2 := (hfiles.2 m f hdl).2 lid h1
        rwa [upserts_media_eq] at h2

/-- C1 witness: with a download oracle that always raises, a pipeline run
over one media item records nothing in the trace and adds no index row. -/
theorem runPipeline_record_after_write_witness :
    Event.recordCreated "m1" "a.mp4" ∉
      (runPipeline (fun _ _ => false) [sampleMedia] emptyIndex).events ∧
    ∀ lid, (⟨"m1", "a.mp4", lid⟩ : MediaRow) ∉
      (runPipeline (fun _ _ => false) [sampleMedia] emptyIndex).state.media := by
  have h := (runPipeline_record_after_write (fun _ _ => false) [sampleMedia]
    emptyIndex).2 "m1" "a.mp4" rfl
  exact ⟨h.1, fun lid hmem => by simpa [emptyIndex] using h.2 lid hmem⟩

/-! Helper lemmas for the second-run idempotence of the pipeline. -/

/-- Unfolding of `_save_media_file` on an unprocessed file. -/
theorem saveMediaFile_unprocessed_eq (dl : String → String → Bool)
    (media : Media) (file : MediaFile) (s : IndexState)
    (hp : file.is_processed = false) :
    saveMediaFile dl media file s = ⟨s, [], none⟩ := by
  unfold saveMediaFile
  rw [if_pos (by simp [hp])]

/-- Unfolding of `_save_media_file` on a file already present in the
index. -/
theorem saveMediaFile_has_eq (dl : String → String → Bool)
    (media : Media) (file : MediaFile) (s : IndexState)
    (hp : file.is_processed = true)
    (hh : hasMedia s media.media_id file.name = true) :
    saveMediaFile dl media file s =
      ⟨s, [Event.hasMediaQuery media.media_id file.name true], none⟩ := by
  unfold saveMediaFile
  rw [if_neg (by simp [hp]), if_pos hh]

/-- With an always-succeeding download oracle, one `_save_media_file` step
never raises. -/
theorem saveMediaFile_true_err_none (media : Media) (file : MediaFile)
    (s : IndexState) :
    (saveMediaFile (fun _ _ => true) media file s).err = none := by
  unfold saveMediaFile
  by_cases hp : file.is_processed
  · rw [if_neg (by simp [hp])]
    by_cases hh : hasMedia s media.media_id file.name
    · rw [if_pos hh]
    · rw [if_neg hh, if_pos rfl,
        show createMedia s media.media_id file.name media.lesson.id =
          Except.ok { s with media :=
            s.media ++ [⟨media.media_id, file.name, media.lesson.id⟩] } from by
          unfold createMedia
          rw [if_neg (by simpa using hh)]]
  · rw [if_pos (by simpa using hp)]

/-- With an always-succeeding download oracle, a processed file has its
record in the index after one `_save_media_file` step. -/
theorem saveMediaFile_true_has (media : Media) (file : MediaFile)
    (s : IndexState) (hp : file.is_processed = true) :
    hasMedia (saveMediaFile (fun _ _ => true) media file s).state
      media.media_id file.name = true := by
  unfold saveMediaFile
  by_cases hh : hasMedia s media.media_id file.name
  · rw [if_neg (by simp [hp]), if_pos hh]
    exact hh
  · rw [if_neg (by simp [hp]), if_neg hh, if_pos rfl,
      show createMedia s media.media_id file.name media.lesson.id =
        Except.ok { s with media :=
          s.media ++ [⟨media.media_id, file.name, media.lesson.id⟩] } from by
        unfold createMedia
        rw [if_neg (by simpa using hh)]]
    simp [hasMedia]

/-- One `_save_media_file` step never removes an index row, and never
touches the course and lesson tables. -/
theorem saveMediaFile_state_proj (dl : String → String → Bool)
    (media : Media) (file : MediaFile) (s : IndexState) :
    (saveMediaFile dl media file s).state.courses = s.courses ∧
    (saveMediaFile dl media file s).state.lessons = s.lessons ∧
    ∀ r ∈ s.media, r ∈ (saveMediaFile dl media file s).state.media := by
  unfold saveMediaFile
  split
  · exact ⟨rfl, rfl, fun r h => h⟩
  · split
    · exact ⟨rfl, rfl, fun r h => h⟩
    · split
      · split
        · rename_i s1 hcm
          unfold createMedia at hcm
          split at hcm
          · cases hcm
          · cases hcm
            exact ⟨rfl, rfl, fun r h => List.mem_append_left _ h⟩
        · exact ⟨rfl, rfl, fun r h => h⟩
      · exact ⟨rfl, rfl, fun r h => h⟩

/-- An existence check transfers along any superset of the media table. -/
theorem hasMedia_mono (s s2 : IndexState) (m f : String)
    (hsub : ∀ r ∈ s.media, r ∈ s2.media) (h : hasMedia s m f = true) :
    hasMedia s2 m f = true := by
  rcases List.any_eq_true.mp h with ⟨r, hr, hpred⟩
  exact List.any_eq_true.mpr ⟨r, hsub r hr, hpred⟩

/-- The file loop never removes an index row and never touches the course
and lesson tables. -/
theorem runFiles_state_proj (dl : String → String → Bool) (media : Media)
    (files : List MediaFile) (s : IndexState) :
    (runFiles dl media files s).state.courses = s.courses ∧
    (runFiles dl media files s).state.lessons = s.lessons ∧
    ∀ r ∈ s.media, r ∈ (runFiles dl media files s).state.media := by
  induction files generalizing s with
  | nil => exact ⟨rfl, rfl, fun r h => h⟩
  | cons file rest ih =>
    have hstep := saveMediaFile_state_proj dl media file s
    cases herr : (saveMediaFile dl media file s).err with
    | some e =>
      have hres : runFiles dl media (file :: rest) s =
          ⟨(saveMediaFile dl media file s).state,
           (saveMediaFile dl media file s).events, some e⟩ := by
        simp [runFiles, herr]
      rw [hres]
      exact hstep
    | none =>
      have hres : runFiles dl media (file :: rest) s =
          ⟨(runFiles dl media rest (saveMediaFile dl media file s).state).state,
           (saveMediaFile dl media file s).events ++
             (runFiles dl media rest (saveMediaFile dl media file s).state).events,
           (runFiles dl media rest (saveMediaFile dl media file s).state).err⟩ := by
        simp [runFiles, herr]
      rw [hres]
      have hih := ih (saveMediaFile dl media file s).state
      exact ⟨hih.1.trans hstep.1, hih.2.1.trans hstep.2.1,
        fun r h => hih.2.2 r (hstep.2.2 r h)⟩

/-- With an always-succeeding download oracle, the file loop never
raises. -/
theorem runFiles_true_err_none (media : Media) (files : List MediaFile)
    (s : IndexState) :
    (runFiles (fun _ _ => true) media files s).err = none := by
  induction files generalizing s with
  | nil => rfl
  | cons file rest ih =>
    have herr := saveMediaFile_true_err_none media file s
    have hres : runFiles (fun _ _ => true) media (file :: rest) s =
        ⟨(runFiles (fun _ _ => true) media rest
            (saveMediaFile (fun _ _ => true) media file s).state).state,
         (saveMediaFile (fun _ _ => true) media file s).events ++
           (runFiles (fun _ _ => true) media rest
             (saveMediaFile (fun _ _ => true) media file s).state).events,
         (runFiles (fun _ _ => true) media rest
           (saveMediaFile (fun _ _ => true) media file s).state).err⟩ := by
      simp [runFiles, herr]
    rw [hres]
    exact ih _

/-- With an always-succeeding download oracle, every processed file of the
media has its record in the index after the file loop. -/
theorem runFiles_true_complete (media : Media) (files : List MediaFile)
    (s : IndexState) :
    ∀ f ∈ files, f.is_processed = true →
      hasMedia (runFiles (fun _ _ => true) media files s).state
        media.media_id f.name = true := by
  induction files generalizing s with
  | nil =>
    intro f hf
    cases hf
  | cons file rest ih =>
    intro f hf hproc
    have herr := saveMediaFile_true_err_none media file s
    have hres : runFiles (fun _ _ => true) media (file :: rest) s =
        ⟨(runFiles (fun _ _ => true) media rest
            (saveMediaFile (fun _ _ => true) media file s).state).state,
         (saveMediaFile (fun _ _ => true) media file s).events ++
           (runFiles (fun _ _ => true) media rest
             (saveMediaFile (fun _ _ => true) media file s).state).events,
         (runFiles (fun _ _ => true) media rest
           (saveMediaFile (fun _ _ => true) media file s).state).err⟩ := by
      simp [runFiles, herr]
    rw [hres]
    rcases List.mem_cons.mp hf with hcase | hcase
    · subst hcase
      have hhas := saveMediaFile_true_has media f s hproc
      exact hasMedia_mono _ _ _ _
        (runFiles_state_proj (fun _ _ => true) media rest _).2.2 hhas
    · exact ih _ f hcase hproc

/-- With an always-succeeding download oracle, the pipeline never
raises. -/
theorem runPipeline_true_err_none (medias : List Media) (s : IndexState) :
    (runPipeline (fun _ _ => true) medias s).err = none := by
  induction medias generalizing s with
  | nil => rfl
  | cons media rest ih =>
    have herr : (downloadMediaIfNotExists (fun _ _ => true) media s).err = none :=
      runFiles_true_err_none media media.files _
    have hres : runPipeline (fun _ _ => true) (media :: rest) s =
        ⟨(runPipeline (fun _ _ => true) rest
            (downloadMediaIfNotExists (fun _ _ => true) media s).state).state,
         (downloadMediaIfNotExists (fun _ _ => true) media s).events ++
           (runPipeline (fun _ _ => true) rest
             (downloadMediaIfNotExists (fun _ _ => true) media s).state).events,
         (runPipeline (fun _ _ => true) rest
           (downloadMediaIfNotExists (fun _ _ => true) media s).state).err⟩ := by
      simp [runPipeline, herr]
    rw [hres]
    exact ih _

/-- A pipeline run never removes an index row. -/
theorem runPipeline_media_superset (dl : String → String → Bool)
    (medias : List Media) (s : IndexState) :
    ∀ r ∈ s.media, r ∈ (runPipeline dl medias s).state.media := by
  induction medias generalizing s with
  | nil => exact fun r h => h
  | cons media rest ih =>
    have hfiles := runFiles_state_proj dl media media.files
      (createLessonOrUpdate
        (createCourseOrUpdate s media.course.id media.course.name media.course.code)
        media.lesson.id media.lesson.name media.course.id)
    cases herr : (downloadMediaIfNotExists dl media s).err with
    | some e =>
      have hres : runPipeline dl (media :: rest) s =
          ⟨(downloadMediaIfNotExists dl media s).state,
           (downloadMediaIfNotExists dl media s).events, some e⟩ := by
        simp [runPipeline, herr]
      rw [hres]
      exact fun r h => hfiles.2.2 r h
    | none =>
      have hres : runPipeline dl (media :: rest) s =
          ⟨(runPipeline dl rest (downloadMediaIfNotExists dl media s).state).state,
           (downloadMediaIfNotExists dl media s).events ++
             (runPipeline dl rest (downloadMediaIfNotExists dl media s).state).events,
           (runPipeline dl rest (downloadMediaIfNotExists dl media s).state).err⟩ := by
        simp [runPipeline, herr]
      rw [hres]
      exact fun r h => ih _ r (hfiles.2.2 r h)

/-- With an always-succeeding download oracle, every processed file of
every media item in the run has its record in the final index state. -/
theorem runPipeline_true_complete (medias : List Media) (s : IndexState) :
    ∀ media ∈ medias, ∀ f ∈ media.files, f.is_processed = true →
      hasMedia (runPipeline (fun _ _ => true) medias s).state
        media.media_id f.name = true := by
  induction medias generalizing s with
  | nil =>
    intro media hmedia
    cases hmedia
  | cons m rest ih =>
    intro media hmedia f hf hproc
    have herr : (downloadMediaIfNotExists (fun _ _ => true) m s).err = none :=
      runFiles_true_err_none m m.files _
    have hres : runPipeline (fun _ _ => true) (m :: rest) s =
        ⟨(runPipeline (fun _ _ => true) rest
            (downloadMediaIfNotExists (fun _ _ => true) m s).state).state,
         (downloadMediaIfNotExists (fun _ _ => true) m s).events ++
           (runPipeline (fun _ _ => true) rest
             (downloadMediaIfNotExists (fun _ _ => true) m s).state).events,
         (runPipeline (fun _ _ => true) rest
           (downloadMediaIfNotExists (fun _ _ => true) m s).state).err⟩ := by
      simp [runPipeline, herr]
    rw [hres]
    rcases List.mem_cons.mp hmedia with hcase | hcase
    · subst hcase
      have hhas := runFiles_true_complete media media.files
        (createLessonOrUpdate
          (createCourseOrUpdate s media.course.id media.course.name media.course.code)
          media.lesson.id media.lesson.name media.course.id) f hf hproc
      exact hasMedia_mono _ _ _ _
        (runPipeline_media_superset (fun _ _ => true) rest _) hhas
    · exact ih _ media hcase f hf hproc

/-- An existence check sees only the media table, which upserts leave
untouched. -/
theorem hasMedia_upserts (s : IndexState) (media : Media) (m f : String) :
    hasMedia (createLessonOrUpdate
        (createCourseOrUpdate s media.course.id media.course.name media.course.code)
        media.lesson.id media.lesson.name media.course.id) m f = hasMedia s m f := rfl

/-- When every processed file of the media already has a record, the file
loop changes nothing, raises nothing, and only performs existence checks
that come back positive. -/
theorem runFiles_all_skip (dl : String → String → Bool) (media : Media)
    (files : List MediaFile) (s : IndexState)
    (h : ∀ f ∈ files, f.is_processed = true →
      hasMedia s media.media_id f.name = true) :
    (runFiles dl media files s).state = s ∧
    (runFiles dl media files s).err = none ∧
    ∀ e ∈ (runFiles dl media files s).events,
      ∃ m2 f2, e = Event.hasMediaQuery m2 f2 true := by
  induction files with
  | nil =>
    refine ⟨rfl, rfl, ?_⟩
    intro e he
    cases he
  | cons file rest ih =>
    have hrest := ih (fun f hf hp => h f (List.mem_cons_of_mem file hf) hp)
    by_cases hp : file.is_processed
    · have hstep := saveMediaFile_has_eq dl media file s hp
        (h file (List.mem_cons_self _ _) hp)
      have hres : runFiles dl media (file :: rest) s =
          ⟨(runFiles dl media rest s).state,
           [Event.hasMediaQuery media.media_id file.name true] ++
             (runFiles dl media rest s).events,
           (runFiles dl media rest s).err⟩ := by
        simp [runFiles, hstep]
      rw [hres]
      refine ⟨hrest.1, hrest.2.1, ?_⟩
      intro e he
      rcases List.mem_append.mp he with he | he
      · exact ⟨media.media_id, file.name, by simpa using he⟩
      · exact hrest.2.2 e he
    · have hstep := saveMediaFile_unprocessed_eq dl media file s
        (by simpa using hp)
      have hres : runFiles dl media (file :: rest) s =
          ⟨(runFiles dl media rest s).state,
           [] ++ (runFiles dl media rest s).events,
           (runFiles dl media rest s).err⟩ := by
        simp [runFiles, hstep]
      rw [hres]
      refine ⟨hrest.1, hrest.2.1, ?_⟩
      intro e he
      exact hrest.2.2 e (by simpa using he)

/-- When every processed file of every media item already has a record, a
pipeline run leaves the media table unchanged, raises nothing, and only
performs positive existence checks. -/
theorem runPipeline_all_skip (dl : String → String → Bool)
    (medias : List Media) (s : IndexState)
    (h : ∀ media ∈ medias, ∀ f ∈ media.files, f.is_processed = true →
      hasMedia s media.media_id f.name = true) :
    (runPipeline dl medias s).state.media = s.media ∧
    (runPipeline dl medias s).err = none ∧
    ∀ e ∈ (runPipeline dl medias s).events,
      ∃ m2 f2, e = Event.hasMediaQuery m2 f2 true := by
  induction medias generalizing s with
  | nil =>
    refine ⟨rfl, rfl, ?_⟩
    intro e he
    cases he
  | cons media rest ih =>
    have hfiles := runFiles_all_skip dl media media.files
      (createLessonOrUpdate
        (createCourseOrUpdate s media.course.id media.course.name media.course.code)
        media.lesson.id media.lesson.name media.course.id)
      (fun f hf hp => by
        rw [hasMedia_upserts]
        exact h media (List.mem_cons_self _ _) f hf hp)
    have herr : (downloadMediaIfNotExists dl media s).err = none := hfiles.2.1
    have hres : runPipeline dl (media :: rest) s =
        ⟨(runPipeline dl rest (downloadMediaIfNotExists dl media s).state).state,
         (downloadMediaIfNotExists dl media s).events ++
           (runPipeline dl rest (downloadMediaIfNotExists dl media s).state).events,
         (runPipeline dl rest (downloadMediaIfNotExists dl media s).state).err⟩ := by
      simp [runPipeline, herr]
    rw [hres]
    have hstate : (downloadMediaIfNotExists dl media s).state =
        createLessonOrUpdate
          (createCourseOrUpdate s media.course.id media.course.name media.course.code)
          media.lesson.id media.lesson.name media.course.id := hfiles.1
    have hrest := ih (downloadMediaIfNotExists dl media s).state
      (fun m2 hm2 f hf hp => by
        rw [hstate, hasMedia_upserts]
        exact h m2 (List.mem_cons_of_mem media hm2) f hf hp)
    refine ⟨?_, hrest.2.1, ?_⟩
    · rw [hrest.1, hstate]
      rfl
    · intro e he
      rcases List.mem_append.mp he with he | he
      · exact hfiles.2.2 e he
      · exact hrest.2.2 e he

/-- The course table after an error-free pipeline run is the fold of the
course upserts of the run. -/
theorem runPipeline_courses (dl : String → String → Bool)
    (medias : List Media) (s : IndexState)
    (herr : (runPipeline dl medias s).err = none) :
    (runPipeline dl medias s).state.courses =
      upsertFold CourseRow.id (medias.map courseRowOf) s.courses := by
  induction medias generalizing s with
  | nil => rfl
  | cons media rest ih =>
    cases hstep : (downloadMediaIfNotExists dl media s).err with
    | some e =>
      have hres : runPipeline dl (media :: rest) s =
          ⟨(downloadMediaIfNotExists dl media s).state,
           (downloadMediaIfNotExists dl media s).events, some e⟩ := by
        simp [runPipeline, hstep]
      rw [hres] at herr
      cases herr
    | none =>
      have hres : runPipeline dl (media :: rest) s =
          ⟨(runPipeline dl rest (downloadMediaIfNotExists dl media s).state).state,
           (downloadMediaIfNotExists dl media s).events ++
             (runPipeline dl rest (downloadMediaIfNotExists dl media s).state).events,
           (runPipeline dl rest (downloadMediaIfNotExists dl media s).state).err⟩ := by
        simp [runPipeline, hstep]
      rw [hres] at herr ⊢
      have hih := ih (downloadMediaIfNotExists dl media s).state herr
      have hcourses : (downloadMediaIfNotExists dl media s).state.courses =
          upsertBy CourseRow.id (courseRowOf media) s.courses :=
        (runFiles_state_proj dl media media.files _).1
      rw [hih, hcourses]
      rfl

/-- The lesson table after an error-free pipeline run is the fold of the
lesson upserts of the run. -/
theorem runPipeline_lessons (dl : String → String → Bool)
    (medias : List Media) (s : IndexState)
    (herr : (runPipeline dl medias s).err = none) :
    (runPipeline dl medias s).state.lessons =
      upsertFold LessonRow.id (medias.map lessonRowOf) s.lessons := by
  induction medias generalizing s with
  | nil => rfl
  | cons media rest ih =>
    cases hstep : (downloadMediaIfNotExists dl media s).err with
    | some e =>
      have hres : runPipeline dl (media :: rest) s =
          ⟨(downloadMediaIfNotExists dl media s).state,
           (downloadMediaIfNotExists dl media s).events, some e⟩ := by
        simp [runPipeline, hstep]
      rw [hres] at herr
      cases herr
    | none =>
      have hres : runPipeline dl (media :: rest) s =
          ⟨(runPipeline dl rest (downloadMediaIfNotExists dl media s).state).state,
           (downloadMediaIfNotExists dl media s).events ++
             (runPipeline dl rest (downloadMediaIfNotExists dl media s).state).events,
           (runPipeline dl rest (downloadMediaIfNotExists dl media s).state).err⟩ := by
        simp [runPipeline, hstep]
      rw [hres] at herr ⊢
      have hih := ih (downloadMediaIfNotExists dl media s).state herr
      have hlessons : (downloadMediaIfNotExists dl media s).state.lessons =
          upsertBy LessonRow.id (lessonRowOf media) s.lessons :=
        (runFiles_state_proj dl media media.files _).2.1
      rw [hih, hlessons]
      rfl

/-- C10: when the query string of the final login URL assigns only a blank
value to `userId` (the name being syntactically present), the singular
parameter extraction omits the key entirely, and institution resolution on
a 200 response fails with the missing-userId authentication error. -/
theorem beginInstitutionAuthentication_blank_userId
    (url appId : String) (pairs : List (String × String))
    (hp : parseQsl true true (urlQuery url) = .ok pairs)
    (hpresent : ∃ p ∈ pairs, p.1 = "userId")
    (hblank : ∀ p ∈ pairs, p.1 = "userId" → p.2 = "") :
    ∃ params, getUrlSingularQueryParams url = .ok params ∧
      lookupParam params "userId" = none ∧
      beginInstitutionAuthentication 200 url appId =
        .error (PyError.echo "Failed to obtain the the user ID from authentication.") := by
  have hfil : parseQsl true false (urlQuery url) =
      .ok (pairs.filter (fun p => !(p.2 == ""))) := by
    rw [parseQsl_false_eq_filter, hp]
    rfl
  have hok : getUrlSingularQueryParams url =
      .ok (singularize ((pairs.filter (fun p => !(p.2 == ""))).foldl addParam [])) := by
    unfold getUrlSingularQueryParams parseQs
    rw [hfil]
    rfl
  have hfind : (pairs.filter (fun p => !(p.2 == ""))).find?
      (fun p => p.1 == "userId") = none := by
    rw [List.find?_eq_none]
    intro x hx hpx
    have hx1 : x.1 = "userId" := by simpa using hpx
    rcases List.mem_filter.mp hx with ⟨hxmem, hxval⟩
    have hx2 : x.2 = "" := hblank x hxmem hx1
    simp [hx2] at hxval
  have hnone : lookupParam
      (singularize ((pairs.filter (fun p => !(p.2 == ""))).foldl addParam []))
      "userId" = none := by
    rw [foldl_addParam_lookup _ [] (by simp) "userId", hfind]
    simp [singularize, lookupParam]
  refine ⟨_, hok, hnone, ?_⟩
  unfold beginInstitutionAuthentication
  rw [if_neg (by simp), exceptPureBind, hok, exceptBindOk, hnone]
  rfl

/-- C10 witness: the final URL `...?userId=&callbackUrl=y` has `userId`
syntactically present with a blank value; extraction omits it and
institution resolution fails with the missing-userId error. -/
theorem beginInstitutionAuthentication_blank_userId_witness :
    ∃ params,
      getUrlSingularQueryParams
          "https://login.echo360.org.uk/x?userId=&callbackUrl=y" = .ok params ∧
      lookupParam params "userId" = none ∧
      beginInstitutionAuthentication 200
          "https://login.echo360.org.uk/x?userId=&callbackUrl=y" "app1" =
        .error (PyError.echo "Failed to obtain the the user ID from authentication.") :=
  beginInstitutionAuthentication_blank_userId
    "https://login.echo360.org.uk/x?userId=&callbackUrl=y" "app1"
    [("userId", ""), ("callbackUrl", "y")] (by decide)
    ⟨("userId", ""), by decide, rfl⟩ (by decide)

/-- Inversion of a successful monadic bind. -/
theorem exceptBindInv {ε α β : Type} {x : Except ε α} {g : α → Except ε β}
    {b : β} (h : (x >>= g) = .ok b) : ∃ a, x = .ok a ∧ g a = .ok b := by
  cases x with
  | ok a => exact ⟨a, rfl, h⟩
  | error e =>
    rw [exceptBindError] at h
    cases h

/-- Inversion of a successful pure result. -/
theorem exceptPureOk {ε α : Type} {a b : α}
    (h : (pure a : Except ε α) = .ok b) : a = b :=
  Except.ok.inj h

/-- C9 counterexample: on `samplePayload` the stored organization id under
the resolved course id is the string ORG1, but `get_media` returns the
one-character string O as `organization_id` (the code unpacks the first
element of iterating the id value), so `organization_id` does not equal
the stored id value. -/
theorem getMedia_org_id_counterexample :
    Except.map MediaDyn.organization_id (getMedia "m1" samplePayload) =
      .ok (Json.str "O") ∧
    (samplePayload.get "details" >>= fun d =>
      d.get "publishedOrgsByCourseId" >>= fun o =>
      o.index (Json.str "c1") >>= fun e => e.get "id") = .ok (Json.str "ORG1") ∧
    Json.str "O" ≠ Json.str "ORG1" := by
  refine ⟨rfl, rfl, ?_⟩
  intro h
  injection h with h2
  exact absurd h2 (by decide)

/-- C9 (amended): for every media-details payload from which `get_media`
returns successfully, the course, section and lesson ids are the first
elements of `publishedCourseIds`, `publishedSectionIds` and
`publishedLessonIds`, while `organization_id` and `department_id` are the
first elements obtained by unpacking the `id` values stored in the
`publishedOrgsByCourseId` and `publishedDeptsByCourseId` lookup tables
under the resolved course id, not those id values themselves. -/
theorem getMedia_extraction (mediaId : String) (md : Json) (out : MediaDyn)
    (h : getMedia mediaId md = .ok out) :
    (md.get "media" >>= fun m =>
      m.get "publishedCourseIds" >>= fun l => Json.iterFirst l) =
        .ok out.course.id ∧
    (md.get "media" >>= fun m =>
      m.get "publishedSectionIds" >>= fun l => Json.iterFirst l) =
        .ok out.section_id ∧
    (md.get "media" >>= fun m =>
      m.get "publishedLessonIds" >>= fun l => Json.iterFirst l) =
        .ok out.lesson.id ∧
    (md.get "details" >>= fun d =>
      d.get "publishedOrgsByCourseId" >>= fun o =>
      o.index out.course.id >>= fun e =>
      e.get "id" >>= fun v => Json.iterFirst v) = .ok out.organization_id ∧
    (md.get "details" >>= fun d =>
      d.get "publishedDeptsByCourseId" >>= fun o =>
      o.index out.course.id >>= fun e =>
      e.get "id" >>= fun v => Json.iterFirst v) = .ok out.department_id ∧
    out.media_id = mediaId := by
  unfold getMedia at h
  obtain ⟨m1, hm1, h⟩ := exceptBindInv h
  obtain ⟨l1, hl1, h⟩ := exceptBindInv h
  obtain ⟨courseId, hcid, h⟩ := exceptBindInv h
  obtain ⟨m2, hm2, h⟩ := exceptBindInv h
  obtain ⟨l2, hl2, h⟩ := exceptBindInv h
  obtain ⟨sectionId, hsid, h⟩ := exceptBindInv h
  obtain ⟨m3, hm3, h⟩ := exceptBindInv h
  obtain ⟨l3, hl3, h⟩ := exceptBindInv h
  obtain ⟨lessonId, hlid, h⟩ := exceptBindInv h
  obtain ⟨d1, hd1, h⟩ := exceptBindInv h
  obtain ⟨o1, ho1, h⟩ := exceptBindInv h
  obtain ⟨e1, he1, h⟩ := exceptBindInv h
  obtain ⟨v1, hv1, h⟩ := exceptBindInv h
  obtain ⟨organizationId, hoid, h⟩ := exceptBindInv h
  obtain ⟨d2, hd2, h⟩ := exceptBindInv h
  obtain ⟨o2, ho2, h⟩ := exceptBindInv h
  obtain ⟨e2, he2, h⟩ := exceptBindInv h
  obtain ⟨v2, hv2, h⟩ := exceptBindInv h
  obtain ⟨departmentId, hdid, h⟩ := exceptBindInv h
  obtain ⟨cb1, hcb1, h⟩ := exceptBindInv h
  obtain ⟨ce1, hce1, h⟩ := exceptBindInv h
  obtain ⟨courseName, hcn, h⟩ := exceptBindInv h
  obtain ⟨cb2, hcb2, h⟩ := exceptBindInv h
  obtain ⟨ce2, hce2, h⟩ := exceptBindInv h
  obtain ⟨courseCode, hcc, h⟩ := exceptBindInv h
  obtain ⟨lb1, hlb1, h⟩ := exceptBindInv h
  obtain ⟨le1, hle1, h⟩ := exceptBindInv h
  obtain ⟨lessonName, hln, h⟩ := exceptBindInv h
  obtain ⟨d3, hd3, h⟩ := exceptBindInv h
  obtain ⟨fj, hfj, h⟩ := exceptBindInv h
  obtain ⟨fileEntries, hfe, h⟩ := exceptBindInv h
  obtain ⟨files, hfiles, h⟩ := exceptBindInv h
  have hout := (exceptPureOk h).symm
  subst hout
  refine ⟨?_, ?_, ?_, ?_, ?_, rfl⟩
  · rw [hm1, exceptBindOk, hl1, exceptBindOk]
    exact hcid
  · rw [hm2, exceptBindOk, hl2, exceptBindOk]
    exact hsid
  · rw [hm3, exceptBindOk, hl3, exceptBindOk]
    exact hlid
  · rw [hd1, exceptBindOk, ho1, exceptBindOk]
    show (Json.index o1 courseId >>= fun e =>
      e.get "id" >>= fun v => Json.iterFirst v) = _
    rw [he1, exceptBindOk, hv1, exceptBindOk]
    exact hoid
  · rw [hd2, exceptBindOk, ho2, exceptBindOk]
    show (Json.index o2 courseId >>= fun e =>
      e.get "id" >>= fun v => Json.iterFirst v) = _
    rw [he2, exceptBindOk, hv2, exceptBindOk]
    exact hdid

/-- C9 witness: applied to `samplePayload`, the extraction returns the
first published ids and the first characters O and D of the stored
organization and department ids ORG1 and DEPT1. -/
theorem getMedia_extraction_witness :
    (samplePayload.get "media" >>= fun m =>
      m.get "publishedCourseIds" >>= fun l => Json.iterFirst l) =
        .ok sampleMediaOut.course.id ∧
    (samplePayload.get "media" >>= fun m =>
      m.get "publishedSectionIds" >>= fun l => Json.iterFirst l) =
        .ok sampleMediaOut.section_id ∧
    (samplePayload.get "media" >>= fun m =>
      m.get "publishedLessonIds" >>= fun l => Json.iterFirst l) =
        .ok sampleMediaOut.lesson.id ∧
    (samplePayload.get "details" >>= fun d =>
      d.get "publishedOrgsByCourseId" >>= fun o =>
      o.index sampleMediaOut.course.id >>= fun e =>
      e.get "id" >>= fun v => Json.iterFirst v) =
        .ok sampleMediaOut.organization_id ∧
    (samplePayload.get "details" >>= fun d =>
      d.get "publishedDeptsByCourseId" >>= fun o =>
      o.index sampleMediaOut.course.id >>= fun e =>
      e.get "id" >>= fun v => Json.iterFirst v) =
        .ok sampleMediaOut.department_id ∧
    sampleMediaOut.media_id = "m1" :=
  getMedia_extraction "m1" samplePayload sampleMediaOut rfl

/-- C2: a second pipeline run over the same media list, starting from the
state left by a completed first run, performs zero downloads or file
writes and inserts zero new rows into the media index table: every event
of the second run is a positive existence check, and the index state is
left exactly as the first run left it (the course and lesson upserts run
again but change nothing). -/
theorem runPipeline_second_run_idempotent (medias : List Media)
    (s0 : IndexState) :
    (runPipeline (fun _ _ => true) medias s0).err = none ∧
    (runPipeline (fun _ _ => true) medias
        (runPipeline (fun _ _ => true) medias s0).state).state =
      (runPipeline (fun _ _ => true) medias s0).state ∧
    (runPipeline (fun _ _ => true) medias
        (runPipeline (fun _ _ => true) medias s0).state).err = none ∧
    ∀ e ∈ (runPipeline (fun _ _ => true) medias
        (runPipeline (fun _ _ => true) medias s0).state).events,
      ∃ m f, e = Event.hasMediaQuery m f true := by
  have herr1 := runPipeline_true_err_none medias s0
  have hcomplete := runPipeline_true_complete medias s0
  have hskip := runPipeline_all_skip (fun _ _ => true) medias
    (runPipeline (fun _ _ => true) medias s0).state hcomplete
  refine ⟨herr1, ?_, hskip.2.1, hskip.2.2⟩
  have hc2 := runPipeline_courses (fun _ _ => true) medias
    (runPipeline (fun _ _ => true) medias s0).state hskip.2.1
  have hc1 := runPipeline_courses (fun _ _ => true) medias s0 herr1
  have hl2 := runPipeline_lessons (fun _ _ => true) medias
    (runPipeline (fun _ _ => true) medias s0).state hskip.2.1
  have hl1 := runPipeline_lessons (fun _ _ => true) medias s0 herr1
  have hcourses : (runPipeline (fun _ _ => true) medias
      (runPipeline (fun _ _ => true) medias s0).state).state.courses =
      (runPipeline (fun _ _ => true) medias s0).state.courses := by
    rw [hc2, hc1, upsertFold_replay, ← hc1]
  have hlessons : (runPipeline (fun _ _ => true) medias
      (runPipeline (fun _ _ => true) medias s0).state).state.lessons =
      (runPipeline (fun _ _ => true) medias s0).state.lessons := by
    rw [hl2, hl1, upsertFold_replay, ← hl1]
  calc (runPipeline (fun _ _ => true) medias
      (runPipeline (fun _ _ => true) medias s0).state).state
      = ⟨(runPipeline (fun _ _ => true) medias
            (runPipeline (fun _ _ => true) medias s0).state).state.courses,
         (runPipeline (fun _ _ => true) medias
            (runPipeline (fun _ _ => true) medias s0).state).state.lessons,
         (runPipeline (fun _ _ => true) medias
            (runPipeline (fun _ _ => true) medias s0).state).state.media⟩ := rfl
    _ = ⟨(runPipeline (fun _ _ => true) medias s0).state.courses,
         (runPipeline (fun _ _ => true) medias s0).state.lessons,
         (runPipeline (fun _ _ => true) medias s0).state.media⟩ := by
        rw [hcourses, hlessons, hskip.1]
    _ = (runPipeline (fun _ _ => true) medias s0).state := rfl

end Echox
